import Mathlib

/-!
Verification of the ComfyUI Saved-Queue tools against their specification.

The development shallowly embeds the two Python modules
`reframe_queue_and_prefixes.py` and `reseed_queue.py`.  JSON documents are
modelled by the inductive type `Val`; Python dicts become association lists
that preserve insertion order (keys are unique in documents produced by
`json.load`, and all operations read/replace the first matching key, which
agrees with dict semantics).  Statements that can raise in Python
(attribute errors on `.get` of a non-dict, item assignment on non-dicts,
membership tests on non-containers) are modelled with an explicit error
result; the reseed pipeline threads its raises through an error field of
its state: the explicit `ValueError` on an unknown mode, and the
`TypeError` raised by `cls in KSAMPLER_CLASSES` when a traversed node has
an unhashable class_type (a list or a dict), since that membership test is
on a set and hashes its argument.  The PRNG used by the random mode is
modelled as an abstract stream of draws indexed by how many draws have
been consumed.  Python `int()` coercion of strings is modelled with ASCII
whitespace stripping, an optional sign, and ASCII digits separated by
single underscores; Unicode digits and whitespace are not modelled, and
`\d` in the regular expression is likewise modelled as an ASCII digit.
-/

/-- A JSON-like value as produced by `json.load`. -/
inductive Val where
  | vnull : Val
  | vbool : Bool → Val
  | vint : Int → Val
  | vstr : String → Val
  | vlist : List Val → Val
  | vobj : List (String × Val) → Val

/-- Errors a Python statement in these scripts can raise on malformed data. -/
inductive PyErr where
  | attributeError : PyErr
  | typeError : PyErr
deriving DecidableEq

/-- Dict lookup: `d.get(k)`, first matching key. -/
def objGet (o : List (String × Val)) (k : String) : Option Val :=
  match o with
  | [] => none
  | (k1, v) :: rest => if k1 = k then some v else objGet rest k

/-- Dict store: `d[k] = v`; replaces the first matching key, otherwise appends
(Python dicts append new keys at the end of the iteration order). -/
def objSet (o : List (String × Val)) (k : String) (v : Val) : List (String × Val) :=
  match o with
  | [] => [(k, v)]
  | (k1, v1) :: rest => if k1 = k then (k, v) :: rest else (k1, v1) :: objSet rest k v

/-- Whether a value is a mapping (`isinstance(x, dict)`). -/
def is_vobj : Val → Bool
  | .vobj _ => true
  | _ => false

/-- Whether a value is a sequence (`isinstance(x, list)`). -/
def is_vlist : Val → Bool
  | .vlist _ => true
  | _ => false

/-- Whether an optional value is a list (used for section-shape checks). -/
def opt_is_vlist : Option Val → Bool
  | some (.vlist _) => true
  | _ => false

/-- Python equality between an optional value and a string literal: true
exactly when the value is present, is a string, and equals the literal
(`x == "lit"` is False for missing keys and non-string values). -/
def optValEqStr (v : Option Val) (s : String) : Bool :=
  match v with
  | some (.vstr t) => t = s
  | _ => false

/-- Python `d.setdefault(k, dflt)`: return the existing value, or insert and
return the default. -/
def setdefault_obj (o : List (String × Val)) (k : String) (dflt : Val) :
    Val × List (String × Val) :=
  match objGet o k with
  | some v => (v, o)
  | none => (dflt, objSet o k dflt)

/-- Substring test on character lists (Python `needle in haystack` for `str`). -/
def containsSubstr (needle hay : List Char) : Bool :=
  match hay with
  | [] => needle.isEmpty
  | _ :: rest => needle.isPrefixOf hay || containsSubstr needle rest

/-- The digit value of an ASCII digit character list, most significant first. -/
def digitsToNat (ds : List Char) : Nat :=
  ds.foldl (fun a c => a * 10 + (c.toNat - 48)) 0

/-- ASCII whitespace as stripped by Python `int()` on strings. -/
def isPySpace (c : Char) : Bool :=
  c == ' ' || c.toNat == 9 || c.toNat == 10 || c.toNat == 11 || c.toNat == 12
    || c.toNat == 13

/-- After a first digit: further digits, possibly separated by single
underscores; an underscore must be followed by a digit.  Returns the digits
with the underscores removed. -/
def digitsTail : List Char → Option (List Char)
  | [] => some []
  | '_' :: c :: rest =>
    if c.isDigit then (digitsTail rest).map (fun ds => c :: ds) else none
  | ['_'] => none
  | c :: rest =>
    if c.isDigit then (digitsTail rest).map (fun ds => c :: ds) else none

/-- One or more digits with single underscores between digits, as accepted
by Python `int()` after the optional sign. -/
def parsePyDigits : List Char → Option (List Char)
  | [] => none
  | c :: rest =>
    if c.isDigit then (digitsTail rest).map (fun ds => c :: ds) else none

/-- Python `int(s)` on a string: whitespace stripped at both ends, an
optional sign, then digits with optional single underscores between
digits. -/
def parseIntStr (cs : List Char) : Option Int :=
  let t := ((cs.dropWhile isPySpace).reverse.dropWhile isPySpace).reverse
  match t with
  | '-' :: rest => (parsePyDigits rest).map (fun ds => -(digitsToNat ds : Int))
  | '+' :: rest => (parsePyDigits rest).map (fun ds => (digitsToNat ds : Int))
  | _ => (parsePyDigits t).map (fun ds => (digitsToNat ds : Int))

/-- Python `int(x)` coercion as applied to JSON values (floats do not occur). -/
def coerceInt : Val → Option Int
  | .vint n => some n
  | .vbool b => some (if b then 1 else 0)
  | .vstr s => parseIntStr s.toList
  | _ => none

/-!
## reframe_queue_and_prefixes.py

The regular expression used by `rewrite_prefix` is
a dash, one or more digits, the letter f, with a lookahead requiring
either end of string or a digit run followed by the word steps and then
end of string.  Such a match is unique in any string when it exists
(the text after a match contains no dash), so `re.sub` replaces at most one
segment; `findFrameSegment` locates the leftmost (hence the unique) match.
-/

/-- The lookahead after the letter f: end of string, or digits then the word
steps at end of string. -/
def stepsOk (cs : List Char) : Bool :=
  cs.isEmpty ||
    (let ds := cs.takeWhile Char.isDigit
     let rest := cs.dropWhile Char.isDigit
     !ds.isEmpty && decide (rest = ['s', 't', 'e', 'p', 's']))

/-- Locate the match of the frame-segment pattern: returns the text before the
match, the matched digits, and the text after the letter f. -/
def findFrameSegment : List Char → Option (List Char × List Char × List Char)
  | [] => none
  | c :: cs =>
    let next := (findFrameSegment cs).map (fun r => (c :: r.1, r.2.1, r.2.2))
    if c = '-' then
      let ds := cs.takeWhile Char.isDigit
      match cs.dropWhile Char.isDigit with
      | 'f' :: tail =>
        if !ds.isEmpty && stepsOk tail then some ([], ds, tail) else next
      | _ => next
    else next

/-- The result of the `re.sub` call inside `rewrite_prefix`: replace the
matched segment by a dash, the decimal of frames, and the letter f; leave
the string unchanged when there is no match. -/
def subFrame (s : List Char) (frames : Int) : List Char :=
  match findFrameSegment s with
  | some (h, _, tail) => h ++ ('-' :: (toString frames).toList) ++ ('f' :: tail)
  | none => s

/-- `rewrite_prefix(prefix, frames)` from reframe_queue_and_prefixes.py,
specialised to string inputs (the non-string early return is handled at the
call sites by `rewrite_prefix_val`).  Note the source detects a missing
match by comparing the substituted string with the original, so a string
whose digits already equal frames also takes the append branch. -/
def rewrite_prefix (pfx : String) (frames : Int) : String :=
  let s := pfx.toList
  let new := subFrame s frames
  if new = s then (s ++ ('-' :: (toString frames).toList) ++ ['f']).asString
  else new.asString

/-- `rewrite_prefix` including its early return on non-string input. -/
def rewrite_prefix_val (v : Val) (frames : Int) : Val :=
  match v with
  | .vstr s => .vstr ( rewrite_prefix s frames)
  | _ => v

/-- The body of the loop in `fix_graph_nodes` for one node value of the graph
dict.  A non-dict node raises on the attribute access `node.get`; a non-dict
`inputs` value raises on item assignment. -/
def fix_node (node : Val) (frames : Int) : Except PyErr Val :=
  match node with
  | .vobj n =>
    let ct := objGet n "class_type"
    let step1 : Except PyErr (List (String × Val)) :=
      if optValEqStr ct "EmptyHunyuanLatentVideo" then
        let (ins, n1) := setdefault_obj n "inputs" (.vobj [])
        match ins with
        | .vobj io => .ok (objSet n1 "inputs" (.vobj (objSet io "length" (.vint frames))))
        | _ => .error .typeError
      else .ok n
    match step1 with
    | .error e => .error e
    | .ok n1 =>
      if optValEqStr ct "SaveVideo" || optValEqStr ct "SaveImage" then
        let (ins, n2) := setdefault_obj n1 "inputs" (.vobj [])
        match ins with
        | .vobj io =>
          match objGet io "filename_prefix" with
          | some v =>
            .ok (.vobj (objSet n2 "inputs"
              (.vobj (objSet io "filename_prefix" (rewrite_prefix_val v frames)))))
          | none => .ok (.vobj n2)
        | .vstr s =>
          if containsSubstr "filename_prefix".toList s.toList then .error .typeError
          else .ok (.vobj n2)
        | .vlist l =>
          if l.any (fun v => match v with | .vstr s => decide (s = "filename_prefix") | _ => false)
          then .error .typeError
          else .ok (.vobj n2)
        | _ => .error .typeError
      else .ok (.vobj n1)
  | _ => .error .attributeError

/-- `fix_graph_nodes(graph_dict, frames)`: apply `fix_node` to every value of
the graph dict, in iteration order, stopping at the first raise. -/
def fix_graph_nodes (graph : List (String × Val)) (frames : Int) :
    Except PyErr (List (String × Val)) :=
  match graph with
  | [] => .ok []
  | (k, node) :: rest => do
    let node1 ← fix_node node frames
    let rest1 ← fix_graph_nodes rest frames
    .ok ((k, node1) :: rest1)

/-- The body of the loop in `fix_workflow_nodes` for one entry of the UI node
list.  A non-dict entry raises on the attribute access. -/
def fix_ui_node (n : Val) (frames : Int) : Except PyErr Val :=
  match n with
  | .vobj no =>
    let nt := objGet no "type"
    let wv := objGet no "widgets_values"
    let no1 :=
      if optValEqStr nt "EmptyHunyuanLatentVideo" then
        match wv with
        | some (.vlist l) =>
          if 3 ≤ l.length then objSet no "widgets_values" (.vlist (l.set 2 (.vint frames)))
          else no
        | _ => no
      else no
    let no2 :=
      if optValEqStr nt "SaveVideo" || optValEqStr nt "SaveImage" then
        match wv with
        | some (.vlist l) =>
          match l.get? 0 with
          | some (.vstr s) =>
            objSet no1 "widgets_values" (.vlist (l.set 0 (.vstr ( rewrite_prefix s frames))))
          | _ => no1
        | _ => no1
      else no1
    .ok (.vobj no2)
  | _ => .error .attributeError

/-- Apply `fix_ui_node` along the UI node list. -/
def fix_ui_nodes (nodes : List Val) (frames : Int) : Except PyErr (List Val) :=
  match nodes with
  | [] => .ok []
  | n :: rest => do
    let n1 ← fix_ui_node n frames
    let rest1 ← fix_ui_nodes rest frames
    .ok (n1 :: rest1)

/-- `fix_workflow_nodes(meta, frames)`: follow the fixed nested path
extra_pnginfo, then workflow, then nodes; shapes that do not match return the
metadata unchanged, but a non-dict extra_pnginfo value raises on its
attribute access. -/
def fix_workflow_nodes (meta : List (String × Val)) (frames : Int) :
    Except PyErr (List (String × Val)) :=
  match objGet meta "extra_pnginfo" with
  | none => .ok meta
  | some (.vobj ep) =>
    match objGet ep "workflow" with
    | some (.vobj wf) =>
      match objGet wf "nodes" with
      | some (.vlist nodes) => do
        let nodes1 ← fix_ui_nodes nodes frames
        .ok (objSet meta "extra_pnginfo"
          (.vobj (objSet ep "workflow" (.vobj (objSet wf "nodes" (.vlist nodes1))))))
      | _ => .ok meta
    | _ => .ok meta
  | some _ => .error .attributeError

/-- `fix_job_entry(job_entry, frames)`: non-list jobs are returned untouched;
for a list job the graph dict at index 2 and the metadata dict at index 3 are
each processed when present and dict-shaped, independently of each other. -/
def fix_job_entry (job : Val) (frames : Int) : Except PyErr Val :=
  match job with
  | .vlist l => do
    let l1 ← (match l.get? 2 with
      | some (.vobj g) => do
        let g1 ← fix_graph_nodes g frames
        pure (l.set 2 (.vobj g1))
      | _ => pure l)
    match l1.get? 3 with
    | some (.vobj m) => do
      let m1 ← fix_workflow_nodes m frames
      pure (.vlist (l1.set 3 (.vobj m1)))
    | _ => pure (.vlist l1)
  | _ => .ok job

/-- Apply `fix_job_entry` along a section list. -/
def fix_jobs (jobs : List Val) (frames : Int) : Except PyErr (List Val) :=
  match jobs with
  | [] => .ok []
  | j :: rest => do
    let j1 ← fix_job_entry j frames
    let rest1 ← fix_jobs rest frames
    .ok (j1 :: rest1)

/-- One iteration of the section loop of `process_saved_queue`: a section that
is missing or not a list is skipped. -/
def psq_section (data : List (String × Val)) (key : String) (frames : Int) :
    Except PyErr (List (String × Val)) :=
  match objGet data key with
  | some (.vlist jobs) => do
    let jobs1 ← fix_jobs jobs frames
    .ok (objSet data key (.vlist jobs1))
  | _ => .ok data

/-- `process_saved_queue(data, frames)`: traverse the three known queue
sections in order. -/
def process_saved_queue (data : List (String × Val)) (frames : Int) :
    Except PyErr (List (String × Val)) := do
  let d1 ← psq_section data "queue_running" frames
  let d2 ← psq_section d1 "queue_pending" frames
  psq_section d2 "queue_failed" frames

/-!
## reseed_queue.py
-/

/-- The fixed sampler-type set `KSAMPLER_CLASSES`. -/
def KSAMPLER_CLASSES : List String :=
  ["KSampler", "KSamplerAdvanced", "KSampler (Efficient)", "KSamplerSDXL",
   "KSamplerTiled", "SamplerCustom"]

/-- The per-item condition of `iter_queue_items`: a list whose element at
index 2 is a dict, or a bare dict. -/
def queue_item_ok : Val → Bool
  | .vlist l =>
    match l.get? 2 with
    | some (.vobj _) => true
    | _ => false
  | .vobj _ => true
  | _ => false

/-- `iter_queue_items(doc, which)`: for each requested section, if present and
list-typed, yield the items satisfying `queue_item_ok` with their section name
and index; missing or non-list sections contribute nothing. -/
def iter_queue_items (doc : List (String × Val)) (which : List String) :
    List (String × Nat × Val) :=
  which.flatMap (fun sec =>
    match objGet doc sec with
    | some (.vlist items) =>
      items.enum.filterMap (fun p =>
        if queue_item_ok p.2 then some (sec, p.1, p.2) else none)
    | _ => [])

/-- `iter_nodes_from_item(item)`: the dict-valued nodes of the item's node
map; a list item whose index 2 is not a dict yields nothing, a bare dict item
is its own node map. -/
def iter_nodes_from_item : Val → List (String × Val)
  | .vlist l =>
    (match l.get? 2 with
     | some (.vobj nodes) => nodes.filter (fun p => is_vobj p.2)
     | _ => [])
  | .vobj m => m.filter (fun p => is_vobj p.2)
  | _ => []

/-- `find_seed_fields(node)`: the single eligible seed field, when the node's
class is a sampler class and inputs.seed coerces to an integer.  The
membership test `cls in KSAMPLER_CLASSES` is on a set, so it hashes its
argument: a list-valued or dict-valued class_type raises TypeError, which
this embedding returns as an error; every other value is hashable and
simply fails the membership test. -/
def find_seed_fields (node : List (String × Val)) :
    Except String (List (List String × Int)) :=
  match objGet node "class_type" with
  | some (.vlist _) => .error "unhashable type: list"
  | some (.vobj _) => .error "unhashable type: dict"
  | some (.vstr cls) =>
    if cls ∈ KSAMPLER_CLASSES then
      match objGet node "inputs" with
      | some (.vobj ins) =>
        match objGet ins "seed" with
        | some v =>
          match coerceInt v with
          | some n => .ok [(["inputs", "seed"], n)]
          | none => .ok []
        | none => .ok []
      | _ => .ok []
    else .ok []
  | _ => .ok []

/-- `apply_seed(node, path, new_seed)`: walk the path keys, requiring a dict
with the key present at every step, and store the integer at the final key;
any mismatch returns without writing. -/
def apply_seed (node : List (String × Val)) (path : List String) (new : Int) :
    List (String × Val) :=
  match path with
  | [] => node
  | [last] =>
    if (objGet node last).isSome then objSet node last (.vint new) else node
  | k :: rest =>
    match objGet node k with
    | some (.vobj inner) => objSet node k (.vobj (apply_seed inner rest new))
    | _ => node

/-- The mutable state of one `reseed_document` call: the global counter, the
per-job counter, how many random draws were consumed, the two result
counters, and the pending error of the `ValueError` raise. -/
structure RSt where
  seqVal : Int
  jobSeed : Int
  rngIdx : Nat
  touched : Nat
  changed : Nat
  err : Option String
deriving DecidableEq

/-- `next_seq()` from `reseed_document`: return the appropriate counter and
advance it by step. -/
def next_seq (scope : String) (step : Int) (st : RSt) : Int × RSt :=
  if scope = "job" then (st.jobSeed, { st with jobSeed := st.jobSeed + step })
  else (st.seqVal, { st with seqVal := st.seqVal + step })

/-- The per-field seed computation: a random draw, a counter value, or the
`ValueError` on an unknown mode. -/
def computeSeed (mode scope : String) (step : Int) (rng : Nat → Int) (st : RSt) :
    Option Int × RSt :=
  if mode = "random" then (some (rng st.rngIdx), { st with rngIdx := st.rngIdx + 1 })
  else if mode = "increment" then
    let (v, st1) := next_seq scope step st
    (some v, st1)
  else (none, { st with err := some ("Unknown mode: " ++ mode) })

/-- The inner field loop of `reseed_document`: compute the new seed, and write
it (counting the change) only when it differs from the current value; an
unknown mode aborts before any write. -/
def processFields (mode scope : String) (step : Int) (rng : Nat → Int) :
    List (List String × Int) → List (String × Val) → RSt →
      List (String × Val) × RSt
  | [], node, st => (node, st)
  | (path, cur) :: rest, node, st =>
    if st.err.isSome then (node, st)
    else
      match computeSeed mode scope step rng st with
      | (some new, st1) =>
        if new ≠ cur then
          processFields mode scope step rng rest (apply_seed node path new)
            { st1 with changed := st1.changed + 1 }
        else processFields mode scope step rng rest node st1
      | (none, st1) => (node, st1)

/-- One entry of the node loop: non-dict nodes are not yielded by the
traversal; `find_seed_fields` can raise on an unhashable class_type, which
aborts the traversal; a node with no eligible fields is skipped; otherwise
it is counted as touched and its fields are processed. -/
def processNodeEntry (mode scope : String) (step : Int) (rng : Nat → Int)
    (p : String × Val) (st : RSt) : (String × Val) × RSt :=
  match p.2 with
  | .vobj n =>
    if st.err.isSome then (p, st)
    else
      match find_seed_fields n with
      | .error msg => (p, { st with err := some msg })
      | .ok fields =>
        if fields.isEmpty then (p, st)
        else
          let st1 := { st with touched := st.touched + 1 }
          let (n1, st2) := processFields mode scope step rng fields n st1
          ((p.1, .vobj n1), st2)
  | _ => (p, st)

/-- The node loop over a node map's entries. -/
def processNodes (mode scope : String) (step : Int) (rng : Nat → Int) :
    List (String × Val) → RSt → List (String × Val) × RSt
  | [], st => ([], st)
  | p :: rest, st =>
    let (p1, st1) := processNodeEntry mode scope step rng p st
    let (rest1, st2) := processNodes mode scope step rng rest st1
    (p1 :: rest1, st2)

/-- Processing of one yielded queue item: the per-job counter is reset to
start, then the item's node map (index 2 of a list item, or the bare dict) is
processed. -/
def processItem (mode scope : String) (start step : Int) (rng : Nat → Int)
    (item : Val) (st : RSt) : Val × RSt :=
  let st0 := { st with jobSeed := start }
  match item with
  | .vlist l =>
    match l.get? 2 with
    | some (.vobj nodes) =>
      let (nodes1, st1) := processNodes mode scope step rng nodes st0
      (.vlist (l.set 2 (.vobj nodes1)), st1)
    | _ => (item, st0)
  | .vobj nodes =>
    let (nodes1, st1) := processNodes mode scope step rng nodes st0
    (.vobj nodes1, st1)
  | _ => (item, st0)

/-- The item loop over one section's list: exactly the items yielded by
`iter_queue_items` are processed; after a raise the remaining items are left
untouched. -/
def processItems (mode scope : String) (start step : Int) (rng : Nat → Int) :
    List Val → RSt → List Val × RSt
  | [], st => ([], st)
  | item :: rest, st =>
    let (item1, st1) :=
      if st.err.isSome then (item, st)
      else if queue_item_ok item then processItem mode scope start step rng item st
      else (item, st)
    let (rest1, st2) := processItems mode scope start step rng rest st1
    (item1 :: rest1, st2)

/-- Processing of one requested section: missing or non-list sections are
skipped. -/
def processSection (mode scope : String) (start step : Int) (rng : Nat → Int)
    (doc : List (String × Val)) (sec : String) (st : RSt) :
    List (String × Val) × RSt :=
  match objGet doc sec with
  | some (.vlist items) =>
    let (items1, st1) := processItems mode scope start step rng items st
    (objSet doc sec (.vlist items1), st1)
  | _ => (doc, st)

/-- The section loop of `reseed_document`. -/
def processSections (mode scope : String) (start step : Int) (rng : Nat → Int)
    (doc : List (String × Val)) : List String → RSt → List (String × Val) × RSt
  | [], st => (doc, st)
  | sec :: rest, st =>
    let (doc1, st1) := processSection mode scope start step rng doc sec st
    processSections mode scope start step rng doc1 rest st1

/-- The section selection of `reseed_document`: a missing or empty sections
argument (Python falsiness of None and of the empty list) selects the default
pair, any non-empty list is used as given. -/
def valid_sections_of (only_sections : Option (List String)) : List String :=
  match only_sections with
  | none => ["queue_running", "queue_pending"]
  | some l => if l.isEmpty then ["queue_running", "queue_pending"] else l

/-- `reseed_document(doc, mode, start=, step=, scope=, rng_seed=,
only_sections=)`.  Returns the document (reflecting all in-place writes up to
a raise), the two counters, and the raised error if any; the Python function
returns the counter pair and leaves the mutated document with the caller. -/
def reseed_document (doc : List (String × Val)) (mode : String)
    (start step : Int) (scope : String) (rng : Nat → Int)
    (only_sections : Option (List String)) :
    List (String × Val) × Nat × Nat × Option String :=
  let st0 : RSt :=
    { seqVal := start, jobSeed := start, rngIdx := 0, touched := 0,
      changed := 0, err := none }
  let (doc1, st) := processSections mode scope start step rng doc
    (valid_sections_of only_sections) st0
  (doc1, st.touched, st.changed, st.err)

/-!
Observers used by the theorem statements.  They are defined on the traversal
functions of the source (`iter_queue_items`, `iter_nodes_from_item`,
`find_seed_fields`) and read the current seed of every eligible field in
traversal order, both as its coerced integer and as its stored value.
-/

/-- The eligible seed field of one node, as the pair of its coerced integer
and its stored value. -/
def node_seed_pair (n : List (String × Val)) : Option (Int × Val) :=
  match find_seed_fields n with
  | .ok ((_, c) :: _) =>
    (match objGet n "inputs" with
     | some (.vobj ins) =>
       (match objGet ins "seed" with
        | some sv => some (c, sv)
        | none => none)
     | _ => none)
  | _ => none

/-- Whether `find_seed_fields` raises on this node (unhashable class_type). -/
def node_hazard (n : List (String × Val)) : Bool :=
  match find_seed_fields n with
  | .error _ => true
  | .ok _ => false

/-- Whether the node step raises on this entry. -/
def entry_hazard (p : String × Val) : Bool :=
  match p.2 with
  | .vobj n => node_hazard n
  | _ => false

/-- All eligible seed fields of one queue item, in traversal order. -/
def item_seed_pairs (item : Val) : List (Int × Val) :=
  (iter_nodes_from_item item).filterMap (fun p =>
    match p.2 with
    | .vobj n => node_seed_pair n
    | _ => none)

/-- All eligible seed fields of a document restricted to the given sections,
in traversal order. -/
def doc_seed_pairs (doc : List (String × Val)) (which : List String) :
    List (Int × Val) :=
  (iter_queue_items doc which).flatMap (fun t => item_seed_pairs t.2.2)

/-- The coerced seed values of one queue item, in traversal order. -/
def item_seeds (item : Val) : List Int :=
  (item_seed_pairs item).map Prod.fst

/-- The coerced seed values of a document restricted to the given sections,
in traversal order. -/
def doc_seeds (doc : List (String × Val)) (which : List String) : List Int :=
  (doc_seed_pairs doc which).map Prod.fst

/-- The eligible seed pair contributed by one entry of a node map. -/
def entryPairs (p : String × Val) : Option (Int × Val) :=
  match p.2 with
  | .vobj n => node_seed_pair n
  | _ => none

/-- Pairs of all eligible seed fields of the entries of a node map. -/
def nodesPairs (nodes : List (String × Val)) : List (Int × Val) :=
  nodes.filterMap entryPairs

/-- Per-item pair lists of the processed items of one section list. -/
def itemsPairs (items : List Val) : List (Int × Val) :=
  items.flatMap (fun it => if queue_item_ok it then item_seed_pairs it else [])

/-- Pairs of one requested section of a document. -/
def sectionPairs (doc : List (String × Val)) (sec : String) : List (Int × Val) :=
  match objGet doc sec with
  | some (.vlist items) => itemsPairs items
  | _ => []

/-- Whether the node step raises or reaches an eligible field on this entry:
under an unknown mode these are exactly the entries that set the error. -/
def entry_blocks (p : String × Val) : Bool :=
  entry_hazard p || (entryPairs p).isSome

/-- The test for an entry that neither raises nor reaches a field. -/
def entry_clear (p : String × Val) : Bool := !entry_blocks p

/-- The test for an entry whose field search does not raise. -/
def entry_ok (p : String × Val) : Bool := !entry_hazard p

/-- All entries of the node traversal of one item satisfy the test. -/
def item_entries_ok (q : (String × Val) → Bool) (item : Val) : Bool :=
  (iter_nodes_from_item item).all q

/-- All entries of the traversed items of one section list satisfy the test;
items that are not yielded contribute nothing. -/
def items_entries_ok (q : (String × Val) → Bool) (items : List Val) : Bool :=
  items.all (fun it => !queue_item_ok it || item_entries_ok q it)

/-- All entries of one requested section satisfy the test. -/
def section_entries_ok (q : (String × Val) → Bool) (doc : List (String × Val))
    (sec : String) : Bool :=
  match objGet doc sec with
  | some (.vlist items) => items_entries_ok q items
  | _ => true

/-- All entries of the traversal of a document restricted to the given
sections satisfy the test. -/
def doc_entries_ok (q : (String × Val) → Bool) (doc : List (String × Val))
    (which : List String) : Bool :=
  which.all (fun sec => section_entries_ok q doc sec)

theorem objGet_objSet_self (o : List (String × Val)) (k : String) (v : Val) :
    objGet (objSet o k v) k = some v := by
  induction o with
  | nil => simp [objGet, objSet]
  | cons p rest ih =>
    obtain ⟨k1, v1⟩ := p
    by_cases h : k1 = k
    · simp [objGet, objSet, h]
    · simp [objGet, objSet, h, ih]

theorem objGet_objSet_other (o : List (String × Val)) (k k1 : String) (v : Val)
    (h : k1 ≠ k) : objGet (objSet o k v) k1 = objGet o k1 := by
  induction o with
  | nil => simp [objGet, objSet, Ne.symm h]
  | cons p rest ih =>
    obtain ⟨k2, v2⟩ := p
    by_cases h2 : k2 = k
    · subst h2
      simp [objGet, objSet, Ne.symm h]
    · simp only [objSet, if_neg h2, objGet]
      by_cases h3 : k2 = k1 <;> simp [h3, ih]

theorem objSet_self (o : List (String × Val)) (k : String) (v : Val)
    (h : objGet o k = some v) : objSet o k v = o := by
  induction o with
  | nil => simp [objGet] at h
  | cons p rest ih =>
    obtain ⟨k1, v1⟩ := p
    by_cases h1 : k1 = k
    · subst h1
      simp [objGet] at h
      simp [objSet, h]
    · simp [objGet, h1] at h
      simp [objSet, h1, ih h]

/-- Structure of `find_seed_fields`: it raises on an unhashable class_type,
or finds no eligible field, or finds exactly one eligible field at
inputs.seed, with the shape facts that produced it. -/
theorem find_seed_fields_cases (n : List (String × Val)) :
    (∃ msg, find_seed_fields n = .error msg ∧ node_hazard n = true ∧
      node_seed_pair n = none) ∨
    (find_seed_fields n = .ok [] ∧ node_hazard n = false ∧
      node_seed_pair n = none) ∨
    (∃ cls c ins sv,
      find_seed_fields n = .ok [(["inputs", "seed"], c)] ∧
      objGet n "class_type" = some (.vstr cls) ∧ cls ∈ KSAMPLER_CLASSES ∧
      objGet n "inputs" = some (.vobj ins) ∧ objGet ins "seed" = some sv ∧
      coerceInt sv = some c ∧ node_hazard n = false ∧
      node_seed_pair n = some (c, sv)) := by
  match hct : objGet n "class_type" with
  | none =>
    right; left
    refine ⟨?_, ?_, ?_⟩ <;>
      simp [node_hazard, node_seed_pair, find_seed_fields, hct]
  | some .vnull | some (.vbool _) | some (.vint _) =>
    right; left
    refine ⟨?_, ?_, ?_⟩ <;>
      simp [node_hazard, node_seed_pair, find_seed_fields, hct]
  | some (.vlist _) =>
    left
    refine ⟨"unhashable type: list", ?_, ?_, ?_⟩ <;>
      simp [node_hazard, node_seed_pair, find_seed_fields, hct]
  | some (.vobj _) =>
    left
    refine ⟨"unhashable type: dict", ?_, ?_, ?_⟩ <;>
      simp [node_hazard, node_seed_pair, find_seed_fields, hct]
  | some (.vstr cls) =>
    by_cases hcls : cls ∈ KSAMPLER_CLASSES
    · match hins : objGet n "inputs" with
      | none =>
        right; left
        refine ⟨?_, ?_, ?_⟩ <;>
          simp [node_hazard, node_seed_pair, find_seed_fields, hct, hcls, hins]
      | some .vnull | some (.vbool _) | some (.vint _) | some (.vstr _)
      | some (.vlist _) =>
        right; left
        refine ⟨?_, ?_, ?_⟩ <;>
          simp [node_hazard, node_seed_pair, find_seed_fields, hct, hcls, hins]
      | some (.vobj ins) =>
        match hsv : objGet ins "seed" with
        | none =>
          right; left
          refine ⟨?_, ?_, ?_⟩ <;>
            simp [node_hazard, node_seed_pair, find_seed_fields, hct, hcls, hins, hsv]
        | some sv =>
          match hc : coerceInt sv with
          | none =>
            right; left
            refine ⟨?_, ?_, ?_⟩ <;>
              simp [node_hazard, node_seed_pair, find_seed_fields, hct, hcls, hins,
                hsv, hc]
          | some c =>
            right; right
            refine ⟨cls, c, ins, sv, ?_, rfl, hcls, rfl, hsv, hc, ?_, ?_⟩
            · simp [find_seed_fields, hct, hcls, hins, hsv, hc]
            · simp [node_hazard, find_seed_fields, hct, hcls, hins, hsv, hc]
            · simp [node_seed_pair, find_seed_fields, hct, hcls, hins, hsv, hc]
    · right; left
      refine ⟨?_, ?_, ?_⟩ <;>
        simp [node_hazard, node_seed_pair, find_seed_fields, hct, hcls]

/-- A node whose field search returns no field has no seed pair. -/
theorem node_seed_pair_of_empty (n : List (String × Val))
    (h : find_seed_fields n = .ok []) : node_seed_pair n = none := by
  unfold node_seed_pair
  rw [h]

/-- Writing the seed of an eligible node keeps it eligible and leaves its
seed pair at the written integer. -/
theorem apply_seed_eligible (n ins : List (String × Val)) (cls : String) (sv : Val)
    (v : Int)
    (hct : objGet n "class_type" = some (.vstr cls)) (hcls : cls ∈ KSAMPLER_CLASSES)
    (hins : objGet n "inputs" = some (.vobj ins)) (hsv : objGet ins "seed" = some sv) :
    find_seed_fields (apply_seed n ["inputs", "seed"] v)
      = .ok [(["inputs", "seed"], v)] ∧
    node_seed_pair (apply_seed n ["inputs", "seed"] v) = some (v, .vint v) := by
  have happ : apply_seed n ["inputs", "seed"] v
      = objSet n "inputs" (.vobj (objSet ins "seed" (.vint v))) := by
    simp [apply_seed, hins, hsv]
  have hct1 : objGet (objSet n "inputs" (.vobj (objSet ins "seed" (.vint v)))) "class_type"
      = some (.vstr cls) := by
    rw [objGet_objSet_other _ _ _ _ (by decide)]
    exact hct
  have hins1 := objGet_objSet_self n "inputs" (.vobj (objSet ins "seed" (.vint v)))
  have hsv1 := objGet_objSet_self ins "seed" (.vint v)
  constructor
  · rw [happ]
    simp [find_seed_fields, hct1, hcls, hins1, hsv1, coerceInt]
  · rw [happ]
    simp [node_seed_pair, find_seed_fields, hct1, hcls, hins1, hsv1, coerceInt]

theorem computeSeed_inc_global (step : Int) (rng : Nat → Int) (st : RSt) :
    computeSeed "increment" "global" step rng st
      = (some st.seqVal, { st with seqVal := st.seqVal + step }) := rfl

theorem computeSeed_inc_job (step : Int) (rng : Nat → Int) (st : RSt) :
    computeSeed "increment" "job" step rng st
      = (some st.jobSeed, { st with jobSeed := st.jobSeed + step }) := rfl

theorem computeSeed_invalid (mode scope : String) (step : Int) (rng : Nat → Int)
    (st : RSt) (h1 : mode ≠ "random") (h2 : mode ≠ "increment") :
    computeSeed mode scope step rng st
      = (none, { st with err := some ("Unknown mode: " ++ mode) }) := by
  simp [computeSeed, h1, h2]

theorem computeSeed_valid (mode scope : String) (step : Int) (rng : Nat → Int)
    (st : RSt) (hm : mode = "random" ∨ mode = "increment") :
    ∃ v st1, computeSeed mode scope step rng st = (some v, st1) ∧
      st1.touched = st.touched ∧ st1.changed = st.changed ∧ st1.err = st.err := by
  rcases hm with h | h <;> subst h
  · exact ⟨_, _, rfl, rfl, rfl, rfl⟩
  · by_cases hs : scope = "job"
    · subst hs
      exact ⟨_, _, rfl, rfl, rfl, rfl⟩
    · refine ⟨st.seqVal, { st with seqVal := st.seqVal + step }, ?_, rfl, rfl, rfl⟩
      simp [computeSeed, next_seq, hs]

theorem list_set_get (l : List Val) (n : Nat) (x : Val) (h : l.get? n = some x) :
    l.set n x = l := by
  induction l generalizing n with
  | nil => simp [List.get?] at h
  | cons a rest ih =>
    cases n with
    | zero =>
      have ha : a = x := Option.some.inj h
      simp [List.set, ha]
    | succ m =>
      simp [List.set, ih m h]

/-- The item-level observer agrees with the per-entry pairs of the node map,
for a bare dict item. -/
theorem item_seed_pairs_vobj (nodes : List (String × Val)) :
    item_seed_pairs (.vobj nodes) = nodesPairs nodes := by
  show (nodes.filter (fun p => is_vobj p.2)).filterMap _ = _
  induction nodes with
  | nil => rfl
  | cons p rest ih =>
    obtain ⟨k, v⟩ := p
    cases v <;>
      simp_all [nodesPairs, entryPairs, is_vobj, List.filter_cons, List.filterMap_cons]

/-- The item-level observer agrees with the per-entry pairs of the node map,
for a list item whose index 2 holds the node map. -/
theorem item_seed_pairs_vlist (l : List Val) (nodes : List (String × Val))
    (h : l.get? 2 = some (.vobj nodes)) :
    item_seed_pairs (.vlist l) = nodesPairs nodes := by
  have h2 : l[2]? = some (Val.vobj nodes) := by simpa using h
  have heq : item_seed_pairs (.vlist l) = item_seed_pairs (.vobj nodes) := by
    simp [item_seed_pairs, iter_nodes_from_item, h2]
  rw [heq, item_seed_pairs_vobj]

/-- Over a node map, a test that holds on non-dict entries holds on all
entries exactly when it holds on the yielded dict entries. -/
theorem all_filter_vobj (q : (String × Val) → Bool)
    (hq : ∀ p : String × Val, is_vobj p.2 = false → q p = true)
    (nodes : List (String × Val)) :
    (nodes.filter (fun p => is_vobj p.2)).all q = nodes.all q := by
  induction nodes with
  | nil => rfl
  | cons p rest ih =>
    cases h : is_vobj p.2 with
    | true => simp [List.filter_cons, h, ih]
    | false => simp [List.filter_cons, h, ih, hq p h]

/-- A non-dict entry never raises. -/
theorem entry_ok_of_not_vobj (p : String × Val) (h : is_vobj p.2 = false) :
    entry_ok p = true := by
  obtain ⟨k, v⟩ := p
  cases v <;> simp_all [entry_ok, entry_hazard, is_vobj]

/-- A non-dict entry neither raises nor carries a field. -/
theorem entry_clear_of_not_vobj (p : String × Val) (h : is_vobj p.2 = false) :
    entry_clear p = true := by
  obtain ⟨k, v⟩ := p
  cases v <;> simp_all [entry_clear, entry_blocks, entry_hazard, entryPairs, is_vobj]

/-- The item-level test agrees with the node-map test for a bare dict item. -/
theorem item_entries_ok_vobj (q : (String × Val) → Bool)
    (hq : ∀ p : String × Val, is_vobj p.2 = false → q p = true)
    (nodes : List (String × Val)) :
    item_entries_ok q (.vobj nodes) = nodes.all q := by
  show (nodes.filter (fun p => is_vobj p.2)).all q = nodes.all q
  exact all_filter_vobj q hq nodes

/-- The item-level test agrees with the node-map test for a list item whose
index 2 holds the node map. -/
theorem item_entries_ok_vlist (q : (String × Val) → Bool)
    (hq : ∀ p : String × Val, is_vobj p.2 = false → q p = true)
    (l : List Val) (nodes : List (String × Val))
    (h : l.get? 2 = some (.vobj nodes)) :
    item_entries_ok q (.vlist l) = nodes.all q := by
  have h2 : l[2]? = some (Val.vobj nodes) := by simpa using h
  have heq : item_entries_ok q (.vlist l) = item_entries_ok q (.vobj nodes) := by
    simp [item_entries_ok, iter_nodes_from_item, h2]
  rw [heq, item_entries_ok_vobj q hq nodes]

theorem items_entries_ok_cons (q : (String × Val) → Bool) (it : Val)
    (rest : List Val) :
    items_entries_ok q (it :: rest)
      = ((!queue_item_ok it || item_entries_ok q it) && items_entries_ok q rest) := by
  simp [items_entries_ok]

theorem section_entries_ok_congr (q : (String × Val) → Bool)
    (d1 d2 : List (String × Val)) (k : String)
    (h : objGet d1 k = objGet d2 k) :
    section_entries_ok q d1 k = section_entries_ok q d2 k := by
  unfold section_entries_ok
  rw [h]

theorem doc_entries_ok_cons (q : (String × Val) → Bool) (doc : List (String × Val))
    (sec : String) (rest : List String) :
    doc_entries_ok q doc (sec :: rest)
      = (section_entries_ok q doc sec && doc_entries_ok q doc rest) := by
  simp [doc_entries_ok]

theorem doc_entries_ok_congr (q : (String × Val) → Bool)
    (d1 d2 : List (String × Val)) (secs : List String)
    (h : ∀ k ∈ secs, objGet d1 k = objGet d2 k) :
    doc_entries_ok q d1 secs = doc_entries_ok q d2 secs := by
  induction secs with
  | nil => rfl
  | cons sec rest ih =>
    rw [doc_entries_ok_cons, doc_entries_ok_cons,
      section_entries_ok_congr q d1 d2 sec (h sec (by simp)),
      ih (fun k hk => h k (by simp [hk]))]

theorem enumFrom_filterMap_pairs (items : List Val) (k : Nat) (sec : String) :
    ((items.enumFrom k).filterMap
        (fun p => if queue_item_ok p.2 then some (sec, p.1, p.2) else none)).flatMap
        (fun t => item_seed_pairs t.2.2)
      = itemsPairs items := by
  induction items generalizing k with
  | nil => rfl
  | cons it rest ih =>
    have hits : itemsPairs (it :: rest)
        = (if queue_item_ok it then item_seed_pairs it else []) ++ itemsPairs rest := by
      simp [itemsPairs]
    rw [hits, ← ih (k + 1)]
    by_cases h : queue_item_ok it <;>
      simp [List.enumFrom, List.filterMap_cons, h]

/-- Decomposition of the document observer along the requested sections. -/
theorem doc_seed_pairs_cons (doc : List (String × Val)) (sec : String)
    (rest : List String) :
    doc_seed_pairs doc (sec :: rest) = sectionPairs doc sec ++ doc_seed_pairs doc rest := by
  unfold doc_seed_pairs iter_queue_items sectionPairs
  rw [List.flatMap_cons, List.flatMap_append]
  congr 1
  match hsec : objGet doc sec with
  | none => rfl
  | some .vnull | some (.vbool _) | some (.vint _) | some (.vstr _)
  | some (.vobj _) => rfl
  | some (.vlist items) =>
    have := enumFrom_filterMap_pairs items 0 sec
    simpa [List.enum] using this

theorem doc_seed_pairs_nil (doc : List (String × Val)) : doc_seed_pairs doc [] = [] := rfl

theorem processNodes_cons (mode scope : String) (step : Int) (rng : Nat → Int)
    (p : String × Val) (rest : List (String × Val)) (st : RSt) :
    processNodes mode scope step rng (p :: rest) st
      = ((processNodeEntry mode scope step rng p st).1
           :: (processNodes mode scope step rng rest
                (processNodeEntry mode scope step rng p st).2).1,
         (processNodes mode scope step rng rest
           (processNodeEntry mode scope step rng p st).2).2) := rfl

theorem processItems_cons (mode scope : String) (start step : Int) (rng : Nat → Int)
    (item : Val) (rest : List Val) (st : RSt) :
    processItems mode scope start step rng (item :: rest) st
      = (let h1 := if st.err.isSome then (item, st)
           else if queue_item_ok item then processItem mode scope start step rng item st
           else (item, st)
         ((h1.1 :: (processItems mode scope start step rng rest h1.2).1),
          (processItems mode scope start step rng rest h1.2).2)) := rfl

theorem processSections_cons (mode scope : String) (start step : Int) (rng : Nat → Int)
    (doc : List (String × Val)) (sec : String) (rest : List String) (st : RSt) :
    processSections mode scope start step rng doc (sec :: rest) st
      = processSections mode scope start step rng
          (processSection mode scope start step rng doc sec st).1 rest
          (processSection mode scope start step rng doc sec st).2 := rfl

theorem nodesPairs_cons (p : String × Val) (rest : List (String × Val)) :
    nodesPairs (p :: rest) = (entryPairs p).toList ++ nodesPairs rest := by
  cases hep : entryPairs p <;> simp [nodesPairs, List.filterMap_cons, hep]

theorem itemsPairs_cons (it : Val) (rest : List Val) :
    itemsPairs (it :: rest)
      = (if queue_item_ok it then item_seed_pairs it else []) ++ itemsPairs rest := by
  simp [itemsPairs]

theorem processFields_invalid (mode scope : String) (step : Int) (rng : Nat → Int)
    (h1 : mode ≠ "random") (h2 : mode ≠ "increment")
    (fields : List (List String × Int)) (node : List (String × Val)) (st : RSt)
    (herr : st.err = none) (hne : fields ≠ []) :
    processFields mode scope step rng fields node st
      = (node, { st with err := some ("Unknown mode: " ++ mode) }) := by
  match fields with
  | [] => exact absurd rfl hne
  | (p, c) :: rest =>
    simp [processFields, herr, computeSeed_invalid mode scope step rng st h1 h2]

theorem processNodeEntry_invalid (mode scope : String) (step : Int) (rng : Nat → Int)
    (h1 : mode ≠ "random") (h2 : mode ≠ "increment") (p : String × Val) (st : RSt) :
    (processNodeEntry mode scope step rng p st).1 = p ∧
    ((processNodeEntry mode scope step rng p st).2.err = none ↔
      st.err = none ∧ entry_clear p = true) := by
  obtain ⟨k, v⟩ := p
  match v with
  | .vnull | .vbool _ | .vint _ | .vstr _ | .vlist _ =>
    refine ⟨rfl, ?_⟩
    simp [processNodeEntry, entry_clear, entry_blocks, entry_hazard, entryPairs]
  | .vobj n =>
    match herr : st.err with
    | some e => exact ⟨by simp [processNodeEntry, herr], by simp [processNodeEntry, herr]⟩
    | none =>
      rcases find_seed_fields_cases n with ⟨msg, hf, hhz, hpair⟩ |
        ⟨hf, hhz, hpair⟩ |
        ⟨cls, c, ins, sv, hf, hct, hcls, hins, hsv, hc, hhz, hpair⟩
      · refine ⟨by simp [processNodeEntry, herr, hf], ?_⟩
        simp [processNodeEntry, herr, hf, entry_clear, entry_blocks, entry_hazard, hhz]
      · refine ⟨by simp [processNodeEntry, herr, hf], ?_⟩
        simp [processNodeEntry, herr, hf, entry_clear, entry_blocks, entry_hazard,
          hhz, entryPairs, hpair]
      · have herr1 : (RSt.mk st.seqVal st.jobSeed st.rngIdx (st.touched + 1)
            st.changed st.err).err = none := herr
        have hfty := processFields_invalid mode scope step rng h1 h2
          [(["inputs", "seed"], c)] n { st with touched := st.touched + 1 }
          herr1 (by simp)
        rw [herr] at hfty
        refine ⟨?_, ?_⟩
        · simp [processNodeEntry, herr, hf, hfty]
        · simp [processNodeEntry, herr, hf, hfty, entry_clear, entry_blocks,
            entry_hazard, hhz, entryPairs, hpair]

theorem processNodes_invalid (mode scope : String) (step : Int) (rng : Nat → Int)
    (h1 : mode ≠ "random") (h2 : mode ≠ "increment")
    (nodes : List (String × Val)) (st : RSt) :
    (processNodes mode scope step rng nodes st).1 = nodes ∧
    ((processNodes mode scope step rng nodes st).2.err = none ↔
      st.err = none ∧ nodes.all entry_clear = true) := by
  induction nodes generalizing st with
  | nil => simp [processNodes]
  | cons p rest ih =>
    obtain ⟨hp1, hp2⟩ := processNodeEntry_invalid mode scope step rng h1 h2 p st
    obtain ⟨hr1, hr2⟩ := ih (processNodeEntry mode scope step rng p st).2
    rw [processNodes_cons]
    refine ⟨by rw [hp1, hr1], ?_⟩
    rw [hr2, hp2]
    simp only [List.all_cons, Bool.and_eq_true]
    tauto

theorem processItem_invalid (mode scope : String) (start step : Int) (rng : Nat → Int)
    (h1 : mode ≠ "random") (h2 : mode ≠ "increment") (item : Val) (st : RSt)
    (herr : st.err = none) :
    (processItem mode scope start step rng item st).1 = item ∧
    ((processItem mode scope start step rng item st).2.err = none ↔
      item_entries_ok entry_clear item = true) := by
  match item with
  | .vnull | .vbool _ | .vint _ | .vstr _ =>
    refine ⟨rfl, ?_⟩
    simp [processItem, herr, item_entries_ok, iter_nodes_from_item]
  | .vobj nodes =>
    obtain ⟨hn1, hn2⟩ := processNodes_invalid mode scope step rng h1 h2 nodes
      { st with jobSeed := start }
    constructor
    · show Val.vobj (processNodes mode scope step rng nodes { st with jobSeed := start }).1
        = Val.vobj nodes
      rw [hn1]
    · show (processNodes mode scope step rng nodes { st with jobSeed := start }).2.err
        = none ↔ _
      rw [hn2, item_entries_ok_vobj entry_clear entry_clear_of_not_vobj nodes]
      simp [herr]
  | .vlist l =>
    match hg : l.get? 2 with
    | some (.vobj nodes) =>
      have hg2 : l[2]? = some (Val.vobj nodes) := by simpa using hg
      obtain ⟨hn1, hn2⟩ := processNodes_invalid mode scope step rng h1 h2 nodes
        { st with jobSeed := start }
      have hred : processItem mode scope start step rng (.vlist l) st
          = (.vlist (l.set 2 (.vobj
              (processNodes mode scope step rng nodes { st with jobSeed := start }).1)),
             (processNodes mode scope step rng nodes { st with jobSeed := start }).2) := by
        simp [processItem, hg2]
      rw [hred]
      constructor
      · rw [hn1]
        rw [list_set_get l 2 (.vobj nodes) hg]
      · rw [hn2, item_entries_ok_vlist entry_clear entry_clear_of_not_vobj l nodes hg]
        simp [herr]
    | none =>
      have hg2 : l[2]? = (none : Option Val) := by simpa using hg
      refine ⟨by simp [processItem, hg2], ?_⟩
      have h5 : (processItem mode scope start step rng (.vlist l) st).2.err = none := by
        simp [processItem, hg2, herr]
      rw [h5]
      simp [item_entries_ok, iter_nodes_from_item, hg2]
    | some .vnull =>
      have hg2 : l[2]? = some Val.vnull := by simpa using hg
      refine ⟨by simp [processItem, hg2], ?_⟩
      have h5 : (processItem mode scope start step rng (.vlist l) st).2.err = none := by
        simp [processItem, hg2, herr]
      rw [h5]
      simp [item_entries_ok, iter_nodes_from_item, hg2]
    | some (.vbool b) =>
      have hg2 : l[2]? = some (Val.vbool b) := by simpa using hg
      refine ⟨by simp [processItem, hg2], ?_⟩
      have h5 : (processItem mode scope start step rng (.vlist l) st).2.err = none := by
        simp [processItem, hg2, herr]
      rw [h5]
      simp [item_entries_ok, iter_nodes_from_item, hg2]
    | some (.vint m) =>
      have hg2 : l[2]? = some (Val.vint m) := by simpa using hg
      refine ⟨by simp [processItem, hg2], ?_⟩
      have h5 : (processItem mode scope start step rng (.vlist l) st).2.err = none := by
        simp [processItem, hg2, herr]
      rw [h5]
      simp [item_entries_ok, iter_nodes_from_item, hg2]
    | some (.vstr t) =>
      have hg2 : l[2]? = some (Val.vstr t) := by simpa using hg
      refine ⟨by simp [processItem, hg2], ?_⟩
      have h5 : (processItem mode scope start step rng (.vlist l) st).2.err = none := by
        simp [processItem, hg2, herr]
      rw [h5]
      simp [item_entries_ok, iter_nodes_from_item, hg2]
    | some (.vlist l2) =>
      have hg2 : l[2]? = some (Val.vlist l2) := by simpa using hg
      refine ⟨by simp [processItem, hg2], ?_⟩
      have h5 : (processItem mode scope start step rng (.vlist l) st).2.err = none := by
        simp [processItem, hg2, herr]
      rw [h5]
      simp [item_entries_ok, iter_nodes_from_item, hg2]

theorem processItems_invalid (mode scope : String) (start step : Int) (rng : Nat → Int)
    (h1 : mode ≠ "random") (h2 : mode ≠ "increment") (items : List Val) (st : RSt) :
    (processItems mode scope start step rng items st).1 = items ∧
    ((processItems mode scope start step rng items st).2.err = none ↔
      st.err = none ∧ items_entries_ok entry_clear items = true) := by
  induction items generalizing st with
  | nil => simp [processItems, items_entries_ok]
  | cons it rest ih =>
    rw [processItems_cons]
    match herr : st.err with
    | some e =>
      obtain ⟨hr1, hr2⟩ := ih st
      simp only [herr, Option.isSome_some, if_true]
      refine ⟨by rw [hr1], ?_⟩
      rw [hr2, herr]
      simp
    | none =>
      by_cases hok : queue_item_ok it
      · obtain ⟨hi1, hi2⟩ := processItem_invalid mode scope start step rng h1 h2 it st herr
        obtain ⟨hr1, hr2⟩ := ih (processItem mode scope start step rng it st).2
        simp only [herr, Option.isSome_none, Bool.false_eq_true, if_false, hok, if_true]
        refine ⟨by rw [hi1, hr1], ?_⟩
        rw [hr2, hi2, items_entries_ok_cons]
        simp only [hok, Bool.not_true, Bool.false_or, Bool.and_eq_true]
        tauto
      · obtain ⟨hr1, hr2⟩ := ih st
        simp only [herr, Option.isSome_none, Bool.false_eq_true, if_false, hok]
        refine ⟨by rw [hr1], ?_⟩
        rw [hr2, items_entries_ok_cons]
        simp [hok, herr]

theorem processSection_invalid (mode scope : String) (start step : Int) (rng : Nat → Int)
    (h1 : mode ≠ "random") (h2 : mode ≠ "increment")
    (doc : List (String × Val)) (sec : String) (st : RSt) :
    (processSection mode scope start step rng doc sec st).1 = doc ∧
    ((processSection mode scope start step rng doc sec st).2.err = none ↔
      st.err = none ∧ section_entries_ok entry_clear doc sec = true) := by
  match hsec : objGet doc sec with
  | none =>
    refine ⟨by simp [processSection, hsec], ?_⟩
    have : (processSection mode scope start step rng doc sec st).2 = st := by
      simp [processSection, hsec]
    rw [this]
    simp [section_entries_ok, hsec]
  | some .vnull | some (.vbool _) | some (.vint _) | some (.vstr _)
  | some (.vobj _) =>
    refine ⟨by simp [processSection, hsec], ?_⟩
    have : (processSection mode scope start step rng doc sec st).2 = st := by
      simp [processSection, hsec]
    rw [this]
    simp [section_entries_ok, hsec]
  | some (.vlist items) =>
    obtain ⟨hi1, hi2⟩ := processItems_invalid mode scope start step rng h1 h2 items st
    have hred : processSection mode scope start step rng doc sec st
        = (objSet doc sec (.vlist (processItems mode scope start step rng items st).1),
           (processItems mode scope start step rng items st).2) := by
      simp [processSection, hsec]
    rw [hred]
    constructor
    · rw [hi1]
      exact objSet_self doc sec (.vlist items) hsec
    · rw [hi2]
      simp [section_entries_ok, hsec]

theorem processSections_invalid (mode scope : String) (start step : Int)
    (rng : Nat → Int) (h1 : mode ≠ "random") (h2 : mode ≠ "increment")
    (secs : List String) (doc : List (String × Val)) (st : RSt) :
    (processSections mode scope start step rng doc secs st).1 = doc ∧
    ((processSections mode scope start step rng doc secs st).2.err = none ↔
      st.err = none ∧ doc_entries_ok entry_clear doc secs = true) := by
  induction secs generalizing doc st with
  | nil => simp [processSections, doc_entries_ok]
  | cons sec rest ih =>
    rw [processSections_cons]
    obtain ⟨hs1, hs2⟩ := processSection_invalid mode scope start step rng h1 h2 doc sec st
    obtain ⟨hr1, hr2⟩ := ih (processSection mode scope start step rng doc sec st).1
      (processSection mode scope start step rng doc sec st).2
    refine ⟨by rw [hr1, hs1], ?_⟩
    rw [hr2, hs1, hs2, doc_entries_ok_cons]
    simp only [Bool.and_eq_true]
    tauto

/-- A document with one eligible sampler node in queue_pending. -/
def reseedDocW : List (String × Val) :=
  [("queue_pending", .vlist [.vlist [.vint 0, .vstr "id",
    .vobj [("7", .vobj [("class_type", .vstr "KSampler"),
                        ("inputs", .vobj [("seed", .vint 42)])])]]])]

/-- C2, amended: reseed with a mode outside random and increment never
mutates the document; the call returns normally exactly when the traversal
reaches neither an eligible seed field (which would raise the unknown-mode
ValueError) nor a node whose class_type is an unhashable list or dict (which
raises TypeError in the sampler-class set membership before the mode is
inspected). -/
theorem reseed_unknown_mode_behavior (doc : List (String × Val)) (mode : String)
    (start step : Int) (scope : String) (rng : Nat → Int) (os : Option (List String))
    (h1 : mode ≠ "random") (h2 : mode ≠ "increment") :
    (reseed_document doc mode start step scope rng os).1 = doc ∧
    ((reseed_document doc mode start step scope rng os).2.2.2 = none ↔
      doc_entries_ok entry_clear doc (valid_sections_of os) = true) := by
  obtain ⟨ha, hb⟩ := processSections_invalid mode scope start step rng h1 h2
    (valid_sections_of os) doc
    { seqVal := start, jobSeed := start, rngIdx := 0, touched := 0,
      changed := 0, err := none }
  refine ⟨ha, ?_⟩
  have hproj : (reseed_document doc mode start step scope rng os).2.2.2
      = (processSections mode scope start step rng doc (valid_sections_of os)
          { seqVal := start, jobSeed := start, rngIdx := 0, touched := 0,
            changed := 0, err := none }).2.err := rfl
  rw [hproj, hb]
  simp

/-- C2, counterexample to the claim as stated: on the empty document, reseed
with the unknown mode bogus returns normally with zero counters and no
raise. -/
theorem reseed_unknown_mode_counterexample :
    reseed_document [] "bogus" 0 1 "global" (fun _ => 0) none = ([], 0, 0, none) := rfl

/-- C2, witness: on a document with one eligible seed field, the amended
theorem applies with mode bogus. -/
theorem reseed_unknown_mode_witness :
    ("bogus" : String) ≠ "random" ∧ ("bogus" : String) ≠ "increment" ∧
    ((reseed_document reseedDocW "bogus" 0 1 "global" (fun _ => 0) none).1 = reseedDocW ∧
     ((reseed_document reseedDocW "bogus" 0 1 "global" (fun _ => 0) none).2.2.2 = none ↔
       doc_entries_ok entry_clear reseedDocW (valid_sections_of none) = true)) :=
  ⟨by decide, by decide,
   reseed_unknown_mode_behavior reseedDocW "bogus" 0 1 "global" (fun _ => 0) none
     (by decide) (by decide)⟩

/-- C10: an explicitly empty sections collection is treated exactly like the
unset default, traversing queue_running and queue_pending; any non-empty
collection is used as given. -/
theorem reseed_empty_sections_default :
    (∀ (doc : List (String × Val)) (mode : String) (start step : Int)
       (scope : String) (rng : Nat → Int),
        reseed_document doc mode start step scope rng (some [])
          = reseed_document doc mode start step scope rng none) ∧
    valid_sections_of (some []) = ["queue_running", "queue_pending"] ∧
    (∀ l : List String, l ≠ [] → valid_sections_of (some l) = l) := by
  refine ⟨fun doc mode start step scope rng => rfl, rfl, fun l hl => ?_⟩
  simp [valid_sections_of, hl]

/-- C10, witness: the empty-sections call coincides with the default call on
a concrete document, and a concrete non-empty list is used as given. -/
theorem reseed_empty_sections_default_witness :
    reseed_document reseedDocW "increment" 0 1 "global" (fun _ => 0) (some [])
      = reseed_document reseedDocW "increment" 0 1 "global" (fun _ => 0) none ∧
    (["queue_failed"] : List String) ≠ [] ∧
    valid_sections_of (some ["queue_failed"]) = ["queue_failed"] :=
  ⟨reseed_empty_sections_default.1 reseedDocW "increment" 0 1 "global" (fun _ => 0),
   by decide,
   reseed_empty_sections_default.2.2 ["queue_failed"] (by decide)⟩

/-- The write-policy relation between an input seed field and its output: if
the coerced values agree, then the stored value was not rewritten. -/
def writeRel (a b : Int × Val) : Prop := a.1 = b.1 → b.2 = a.2

/-- The number of positions whose coerced seed differs between input and
output. -/
def changedCount (ins outs : List (Int × Val)) : Nat :=
  (ins.zip outs).countP (fun q => decide (q.1.1 ≠ q.2.1))

theorem changedCount_nil (outs : List (Int × Val)) : changedCount [] outs = 0 := rfl

theorem changedCount_cons (a b : Int × Val) (ins outs : List (Int × Val)) :
    changedCount (a :: ins) (b :: outs)
      = changedCount ins outs + (if a.1 ≠ b.1 then 1 else 0) := by
  simp [changedCount, List.zip_cons_cons, List.countP_cons]

/-- An entry that neither raises nor carries an eligible field is left alone
by the node step. -/
theorem processNodeEntry_skip (mode scope : String) (step : Int) (rng : Nat → Int)
    (p : String × Val) (st : RSt) (hcl : entry_clear p = true) :
    processNodeEntry mode scope step rng p st = (p, st) := by
  obtain ⟨k, v⟩ := p
  match v with
  | .vnull | .vbool _ | .vint _ | .vstr _ | .vlist _ => rfl
  | .vobj n =>
    rcases find_seed_fields_cases n with ⟨msg, hf, hhz, hpair⟩ |
      ⟨hf, hhz, hpair⟩ |
      ⟨cls, c, ins, sv, hf, hct, hcls, hins, hsv, hc, hhz, hpair⟩
    · exfalso
      simp [entry_clear, entry_blocks, entry_hazard, hhz] at hcl
    · simp [processNodeEntry, hf]
    · exfalso
      simp [entry_clear, entry_blocks, entry_hazard, entryPairs, hpair] at hcl

/-- An eligible entry has no hazard. -/
theorem entry_ok_of_pair (p : String × Val) (c : Int) (sv : Val)
    (hep : entryPairs p = some (c, sv)) : entry_ok p = true := by
  obtain ⟨k, v⟩ := p
  match v with
  | .vnull | .vbool _ | .vint _ | .vstr _ | .vlist _ => simp [entryPairs] at hep
  | .vobj n =>
    rcases find_seed_fields_cases n with ⟨msg, hf, hhz, hpair⟩ |
      ⟨hf, hhz, hpair⟩ |
      ⟨cls, c1, ins, sv1, hf, hct, hcls, hins, hsv, hc, hhz, hpair⟩
    · rw [show entryPairs (k, Val.vobj n) = node_seed_pair n from rfl, hpair] at hep
      exact absurd hep (by simp)
    · rw [show entryPairs (k, Val.vobj n) = node_seed_pair n from rfl, hpair] at hep
      exact absurd hep (by simp)
    · simp [entry_ok, entry_hazard, hhz]

theorem processNodeEntry_valid (mode scope : String) (step : Int) (rng : Nat → Int)
    (hm : mode = "random" ∨ mode = "increment") (p : String × Val) (st : RSt)
    (herr : st.err = none) (c : Int) (sv : Val) (hep : entryPairs p = some (c, sv)) :
    ∃ v : Int,
      (processNodeEntry mode scope step rng p st).1.1 = p.1 ∧
      entryPairs (processNodeEntry mode scope step rng p st).1
        = some (v, if v ≠ c then Val.vint v else sv) ∧
      (processNodeEntry mode scope step rng p st).2.err = none ∧
      (processNodeEntry mode scope step rng p st).2.touched = st.touched + 1 ∧
      (processNodeEntry mode scope step rng p st).2.changed
        = st.changed + (if v ≠ c then 1 else 0) := by
  obtain ⟨k, v0⟩ := p
  match v0 with
  | .vnull | .vbool _ | .vint _ | .vstr _ | .vlist _ => simp [entryPairs] at hep
  | .vobj n =>
    rcases find_seed_fields_cases n with ⟨msg, hf, hhz, hpair⟩ |
      ⟨hf, hhz, hpair⟩ |
      ⟨cls, c1, ins, sv1, hf, hct, hcls, hins, hsv, hc, hhz, hpair⟩
    · rw [show entryPairs (k, Val.vobj n) = node_seed_pair n from rfl, hpair] at hep
      exact absurd hep (by simp)
    · rw [show entryPairs (k, Val.vobj n) = node_seed_pair n from rfl,
        node_seed_pair_of_empty n hf] at hep
      exact absurd hep (by simp)
    · rw [show entryPairs (k, Val.vobj n) = node_seed_pair n from rfl, hpair] at hep
      have hceq : c1 = c := congrArg Prod.fst (Option.some.inj hep)
      have hsveq : sv1 = sv := congrArg Prod.snd (Option.some.inj hep)
      subst hceq
      subst hsveq
      obtain ⟨v, stc, hcs, hct2, hch2, herr2⟩ := computeSeed_valid mode scope step rng
        { st with touched := st.touched + 1 } hm
      simp only [] at hct2 hch2 herr2
      rw [herr] at hcs
      refine ⟨v, ?_⟩
      by_cases hv : v = c1
      · subst hv
        have hrun : processNodeEntry mode scope step rng (k, .vobj n) st
            = ((k, .vobj n), stc) := by
          simp [processNodeEntry, herr, hf, processFields, hcs]
        rw [hrun]
        refine ⟨rfl, ?_, ?_, ?_, ?_⟩
        · simp [entryPairs, hpair]
        · rw [herr2]; exact herr
        · rw [hct2]
        · rw [hch2]; simp
      · have hrun : processNodeEntry mode scope step rng (k, .vobj n) st
            = ((k, .vobj (apply_seed n ["inputs", "seed"] v)),
               { stc with changed := stc.changed + 1 }) := by
          simp [processNodeEntry, herr, hf, processFields, hcs, hv]
        rw [hrun]
        obtain ⟨hf2, hp2⟩ := apply_seed_eligible n ins cls sv1 v hct hcls hins hsv
        refine ⟨rfl, ?_, ?_, ?_, ?_⟩
        · simp [entryPairs, hp2, hv]
        · simp [herr2, herr]
        · simp [hct2]
        · simp [hch2, hv]

theorem processNodes_valid (mode scope : String) (step : Int) (rng : Nat → Int)
    (hm : mode = "random" ∨ mode = "increment")
    (nodes : List (String × Val)) (st : RSt) (herr : st.err = none)
    (hhf : nodes.all entry_ok = true) :
    (processNodes mode scope step rng nodes st).2.err = none ∧
    (nodesPairs (processNodes mode scope step rng nodes st).1).length
      = (nodesPairs nodes).length ∧
    (processNodes mode scope step rng nodes st).2.touched
      = st.touched + (nodesPairs nodes).length ∧
    (processNodes mode scope step rng nodes st).2.changed
      = st.changed + changedCount (nodesPairs nodes)
          (nodesPairs (processNodes mode scope step rng nodes st).1) ∧
    List.Forall₂ writeRel (nodesPairs nodes)
      (nodesPairs (processNodes mode scope step rng nodes st).1) := by
  induction nodes generalizing st with
  | nil => simp [processNodes, nodesPairs, changedCount, herr]
  | cons p rest ih =>
    rw [List.all_cons, Bool.and_eq_true] at hhf
    obtain ⟨hhp, hhr⟩ := hhf
    rw [processNodes_cons]
    cases hep : entryPairs p with
    | none =>
      have hcl : entry_clear p = true := by
        have hhz : entry_hazard p = false := by simpa [entry_ok] using hhp
        simp [entry_clear, entry_blocks, hhz, hep]
      rw [processNodeEntry_skip mode scope step rng p st hcl]
      obtain ⟨h1, h2, h3, h4, h5⟩ := ih st herr hhr
      rw [nodesPairs_cons p rest, hep]
      rw [nodesPairs_cons p (processNodes mode scope step rng rest st).1, hep]
      simpa using ⟨h1, h2, h3, h4, h5⟩
    | some pr =>
      obtain ⟨c, sv⟩ := pr
      obtain ⟨v, hk, hepOut, herrOut, htOut, hchOut⟩ :=
        processNodeEntry_valid mode scope step rng hm p st herr c sv hep
      obtain ⟨h1, h2, h3, h4, h5⟩ :=
        ih (processNodeEntry mode scope step rng p st).2 herrOut hhr
      have hhead : nodesPairs ((processNodeEntry mode scope step rng p st).1
            :: (processNodes mode scope step rng rest
                 (processNodeEntry mode scope step rng p st).2).1)
          = (v, if v ≠ c then Val.vint v else sv)
              :: nodesPairs (processNodes mode scope step rng rest
                   (processNodeEntry mode scope step rng p st).2).1 := by
        rw [nodesPairs_cons, hepOut]
        rfl
      have hin : nodesPairs (p :: rest) = (c, sv) :: nodesPairs rest := by
        rw [nodesPairs_cons, hep]
        rfl
      rw [hhead, hin]
      refine ⟨h1, by simpa using h2, ?_, ?_, ?_⟩
      · simp only [List.length_cons]
        rw [h3, htOut]
        omega
      · rw [h4, hchOut, changedCount_cons]
        have hiff : ((c, sv).1 ≠ (v, if v ≠ c then Val.vint v else sv).1) ↔ v ≠ c := by
          exact ne_comm
        rw [if_congr hiff rfl rfl]
        omega
      · refine List.Forall₂.cons ?_ h5
        intro hcv
        have hvc : v = c := by
          have hcv2 : c = v := hcv
          exact hcv2.symm
        simp [hvc]

theorem list_get_set (l : List Val) (n : Nat) (x : Val) (h : (l.get? n).isSome) :
    (l.set n x).get? n = some x := by
  induction l generalizing n with
  | nil => simp [List.get?] at h
  | cons a rest ih =>
    cases n with
    | zero => rfl
    | succ m => exact ih m h

theorem changedCount_append (a b a1 b1 : List (Int × Val)) (h : a.length = a1.length) :
    changedCount (a ++ b) (a1 ++ b1) = changedCount a a1 + changedCount b b1 := by
  unfold changedCount
  rw [List.zip_append h, List.countP_append]

theorem processItem_valid (mode scope : String) (start step : Int) (rng : Nat → Int)
    (hm : mode = "random" ∨ mode = "increment") (item : Val) (st : RSt)
    (herr : st.err = none) (hhf : item_entries_ok entry_ok item = true) :
    (processItem mode scope start step rng item st).2.err = none ∧
    (item_seed_pairs (processItem mode scope start step rng item st).1).length
      = (item_seed_pairs item).length ∧
    (processItem mode scope start step rng item st).2.touched
      = st.touched + (item_seed_pairs item).length ∧
    (processItem mode scope start step rng item st).2.changed
      = st.changed + changedCount (item_seed_pairs item)
          (item_seed_pairs (processItem mode scope start step rng item st).1) ∧
    List.Forall₂ writeRel (item_seed_pairs item)
      (item_seed_pairs (processItem mode scope start step rng item st).1) ∧
    queue_item_ok (processItem mode scope start step rng item st).1
      = queue_item_ok item := by
  have herr0 : (RSt.mk st.seqVal start st.rngIdx st.touched st.changed st.err).err
      = none := herr
  match item with
  | .vnull =>
    have hout : processItem mode scope start step rng Val.vnull st
        = (Val.vnull, { st with jobSeed := start }) := rfl
    rw [hout]
    exact ⟨herr, rfl, rfl, by simp [item_seed_pairs, iter_nodes_from_item, changedCount],
      by simp [item_seed_pairs, iter_nodes_from_item], rfl⟩
  | .vbool b0 =>
    have hout : processItem mode scope start step rng (Val.vbool b0) st
        = (Val.vbool b0, { st with jobSeed := start }) := rfl
    rw [hout]
    exact ⟨herr, rfl, rfl, by simp [item_seed_pairs, iter_nodes_from_item, changedCount],
      by simp [item_seed_pairs, iter_nodes_from_item], rfl⟩
  | .vint m0 =>
    have hout : processItem mode scope start step rng (Val.vint m0) st
        = (Val.vint m0, { st with jobSeed := start }) := rfl
    rw [hout]
    exact ⟨herr, rfl, rfl, by simp [item_seed_pairs, iter_nodes_from_item, changedCount],
      by simp [item_seed_pairs, iter_nodes_from_item], rfl⟩
  | .vstr t0 =>
    have hout : processItem mode scope start step rng (Val.vstr t0) st
        = (Val.vstr t0, { st with jobSeed := start }) := rfl
    rw [hout]
    exact ⟨herr, rfl, rfl, by simp [item_seed_pairs, iter_nodes_from_item, changedCount],
      by simp [item_seed_pairs, iter_nodes_from_item], rfl⟩
  | .vobj nodes =>
    rw [item_entries_ok_vobj entry_ok entry_ok_of_not_vobj nodes] at hhf
    obtain ⟨h1, h2, h3, h4, h5⟩ := processNodes_valid mode scope step rng hm nodes
      { st with jobSeed := start } herr0 hhf
    have hout : processItem mode scope start step rng (.vobj nodes) st
        = (.vobj (processNodes mode scope step rng nodes { st with jobSeed := start }).1,
           (processNodes mode scope step rng nodes { st with jobSeed := start }).2) := rfl
    rw [hout]
    rw [show item_seed_pairs (Val.vobj nodes) = nodesPairs nodes from
      item_seed_pairs_vobj nodes]
    rw [item_seed_pairs_vobj]
    exact ⟨h1, h2, h3, h4, h5, rfl⟩
  | .vlist l =>
    match hg : l.get? 2 with
    | some (.vobj nodes) =>
      have hg2 : l[2]? = some (Val.vobj nodes) := by simpa using hg
      rw [item_entries_ok_vlist entry_ok entry_ok_of_not_vobj l nodes hg] at hhf
      obtain ⟨h1, h2, h3, h4, h5⟩ := processNodes_valid mode scope step rng hm nodes
        { st with jobSeed := start } herr0 hhf
      have hout : processItem mode scope start step rng (.vlist l) st
          = (.vlist (l.set 2 (.vobj
              (processNodes mode scope step rng nodes { st with jobSeed := start }).1)),
             (processNodes mode scope step rng nodes { st with jobSeed := start }).2) := by
        simp [processItem, hg2]
      have hgset : (l.set 2 (.vobj
          (processNodes mode scope step rng nodes { st with jobSeed := start }).1)).get? 2
          = some (.vobj
              (processNodes mode scope step rng nodes { st with jobSeed := start }).1) :=
        list_get_set l 2 _ (by rw [hg]; rfl)
      rw [hout, item_seed_pairs_vlist l nodes hg, item_seed_pairs_vlist _ _ hgset]
      refine ⟨h1, h2, h3, h4, h5, ?_⟩
      have hgset2 : (l.set 2 (.vobj
          (processNodes mode scope step rng nodes { st with jobSeed := start }).1))[2]?
          = some (.vobj
              (processNodes mode scope step rng nodes { st with jobSeed := start }).1) := by
        simpa using hgset
      simp [queue_item_ok, hg2, hgset2]
    | none =>
      have hg2 : l[2]? = (none : Option Val) := by simpa using hg
      have hout : processItem mode scope start step rng (.vlist l) st
          = (.vlist l, { st with jobSeed := start }) := by
        simp [processItem, hg2]
      rw [hout]
      refine ⟨herr, rfl, ?_, ?_, ?_, rfl⟩
      · show st.touched = st.touched + (item_seed_pairs _).length
        simp [item_seed_pairs, iter_nodes_from_item, hg2]
      · show st.changed = st.changed + changedCount (item_seed_pairs _) _
        simp [item_seed_pairs, iter_nodes_from_item, hg2, changedCount]
      · simp [item_seed_pairs, iter_nodes_from_item, hg2]
    | some .vnull =>
      have hg2 : l[2]? = some Val.vnull := by simpa using hg
      have hout : processItem mode scope start step rng (.vlist l) st
          = (.vlist l, { st with jobSeed := start }) := by
        simp [processItem, hg2]
      rw [hout]
      refine ⟨herr, rfl, ?_, ?_, ?_, rfl⟩
      · show st.touched = st.touched + (item_seed_pairs _).length
        simp [item_seed_pairs, iter_nodes_from_item, hg2]
      · show st.changed = st.changed + changedCount (item_seed_pairs _) _
        simp [item_seed_pairs, iter_nodes_from_item, hg2, changedCount]
      · simp [item_seed_pairs, iter_nodes_from_item, hg2]
    | some (.vbool b) =>
      have hg2 : l[2]? = some (Val.vbool b) := by simpa using hg
      have hout : processItem mode scope start step rng (.vlist l) st
          = (.vlist l, { st with jobSeed := start }) := by
        simp [processItem, hg2]
      rw [hout]
      refine ⟨herr, rfl, ?_, ?_, ?_, rfl⟩
      · show st.touched = st.touched + (item_seed_pairs _).length
        simp [item_seed_pairs, iter_nodes_from_item, hg2]
      · show st.changed = st.changed + changedCount (item_seed_pairs _) _
        simp [item_seed_pairs, iter_nodes_from_item, hg2, changedCount]
      · simp [item_seed_pairs, iter_nodes_from_item, hg2]
    | some (.vint m) =>
      have hg2 : l[2]? = some (Val.vint m) := by simpa using hg
      have hout : processItem mode scope start step rng (.vlist l) st
          = (.vlist l, { st with jobSeed := start }) := by
        simp [processItem, hg2]
      rw [hout]
      refine ⟨herr, rfl, ?_, ?_, ?_, rfl⟩
      · show st.touched = st.touched + (item_seed_pairs _).length
        simp [item_seed_pairs, iter_nodes_from_item, hg2]
      · show st.changed = st.changed + changedCount (item_seed_pairs _) _
        simp [item_seed_pairs, iter_nodes_from_item, hg2, changedCount]
      · simp [item_seed_pairs, iter_nodes_from_item, hg2]
    | some (.vstr t) =>
      have hg2 : l[2]? = some (Val.vstr t) := by simpa using hg
      have hout : processItem mode scope start step rng (.vlist l) st
          = (.vlist l, { st with jobSeed := start }) := by
        simp [processItem, hg2]
      rw [hout]
      refine ⟨herr, rfl, ?_, ?_, ?_, rfl⟩
      · show st.touched = st.touched + (item_seed_pairs _).length
        simp [item_seed_pairs, iter_nodes_from_item, hg2]
      · show st.changed = st.changed + changedCount (item_seed_pairs _) _
        simp [item_seed_pairs, iter_nodes_from_item, hg2, changedCount]
      · simp [item_seed_pairs, iter_nodes_from_item, hg2]
    | some (.vlist l2) =>
      have hg2 : l[2]? = some (Val.vlist l2) := by simpa using hg
      have hout : processItem mode scope start step rng (.vlist l) st
          = (.vlist l, { st with jobSeed := start }) := by
        simp [processItem, hg2]
      rw [hout]
      refine ⟨herr, rfl, ?_, ?_, ?_, rfl⟩
      · show st.touched = st.touched + (item_seed_pairs _).length
        simp [item_seed_pairs, iter_nodes_from_item, hg2]
      · show st.changed = st.changed + changedCount (item_seed_pairs _) _
        simp [item_seed_pairs, iter_nodes_from_item, hg2, changedCount]
      · simp [item_seed_pairs, iter_nodes_from_item, hg2]

theorem processItems_cons_ok (mode scope : String) (start step : Int) (rng : Nat → Int)
    (item : Val) (rest : List Val) (st : RSt) (herr : st.err = none)
    (hok : queue_item_ok item = true) :
    processItems mode scope start step rng (item :: rest) st
      = ((processItem mode scope start step rng item st).1
           :: (processItems mode scope start step rng rest
                (processItem mode scope start step rng item st).2).1,
         (processItems mode scope start step rng rest
           (processItem mode scope start step rng item st).2).2) := by
  simp [processItems, herr, hok]

theorem processItems_cons_skip (mode scope : String) (start step : Int) (rng : Nat → Int)
    (item : Val) (rest : List Val) (st : RSt) (herr : st.err = none)
    (hok : queue_item_ok item = false) :
    processItems mode scope start step rng (item :: rest) st
      = (item :: (processItems mode scope start step rng rest st).1,
         (processItems mode scope start step rng rest st).2) := by
  simp [processItems, herr, hok]

theorem processItems_valid (mode scope : String) (start step : Int) (rng : Nat → Int)
    (hm : mode = "random" ∨ mode = "increment") (items : List Val) (st : RSt)
    (herr : st.err = none) (hhf : items_entries_ok entry_ok items = true) :
    (processItems mode scope start step rng items st).2.err = none ∧
    (itemsPairs (processItems mode scope start step rng items st).1).length
      = (itemsPairs items).length ∧
    (processItems mode scope start step rng items st).2.touched
      = st.touched + (itemsPairs items).length ∧
    (processItems mode scope start step rng items st).2.changed
      = st.changed + changedCount (itemsPairs items)
          (itemsPairs (processItems mode scope start step rng items st).1) ∧
    List.Forall₂ writeRel (itemsPairs items)
      (itemsPairs (processItems mode scope start step rng items st).1) := by
  induction items generalizing st with
  | nil => simp [processItems, itemsPairs, changedCount, herr]
  | cons it rest ih =>
    rw [items_entries_ok_cons, Bool.and_eq_true] at hhf
    obtain ⟨hhi, hhr⟩ := hhf
    by_cases hok : queue_item_ok it
    · have hii : item_entries_ok entry_ok it = true := by
        simpa [hok] using hhi
      rw [processItems_cons_ok mode scope start step rng it rest st herr hok]
      obtain ⟨h1, h2, h3, h4, h5, h6⟩ :=
        processItem_valid mode scope start step rng hm it st herr hii
      obtain ⟨g1, g2, g3, g4, g5⟩ :=
        ih (processItem mode scope start step rng it st).2 h1 hhr
      rw [itemsPairs_cons it rest,
        itemsPairs_cons (processItem mode scope start step rng it st).1
          (processItems mode scope start step rng rest
            (processItem mode scope start step rng it st).2).1,
        h6]
      simp only [hok, if_true]
      refine ⟨g1, ?_, ?_, ?_, ?_⟩
      · simp [g2, h2]
      · rw [g3, h3]
        simp only [List.length_append]
        omega
      · rw [g4, h4, changedCount_append _ _ _ _ h2.symm]
        omega
      · exact List.rel_append h5 g5
    · rw [processItems_cons_skip mode scope start step rng it rest st herr
        (by simpa using hok)]
      obtain ⟨g1, g2, g3, g4, g5⟩ := ih st herr hhr
      rw [itemsPairs_cons it rest, itemsPairs_cons it
        (processItems mode scope start step rng rest st).1]
      simp only [hok, if_false]
      exact ⟨g1, by simpa using g2, by simpa using g3, by simpa using g4,
        by simpa using g5⟩

theorem sectionPairs_congr (d1 d2 : List (String × Val)) (k : String)
    (h : objGet d1 k = objGet d2 k) : sectionPairs d1 k = sectionPairs d2 k := by
  unfold sectionPairs
  rw [h]

theorem doc_seed_pairs_congr (d1 d2 : List (String × Val)) (secs : List String)
    (h : ∀ k ∈ secs, objGet d1 k = objGet d2 k) :
    doc_seed_pairs d1 secs = doc_seed_pairs d2 secs := by
  induction secs with
  | nil => rfl
  | cons sec rest ih =>
    rw [doc_seed_pairs_cons, doc_seed_pairs_cons,
      sectionPairs_congr d1 d2 sec (h sec (by simp)),
      ih (fun k hk => h k (by simp [hk]))]

theorem processSection_valid (mode scope : String) (start step : Int) (rng : Nat → Int)
    (hm : mode = "random" ∨ mode = "increment")
    (doc : List (String × Val)) (sec : String) (st : RSt) (herr : st.err = none)
    (hhf : section_entries_ok entry_ok doc sec = true) :
    (processSection mode scope start step rng doc sec st).2.err = none ∧
    (sectionPairs (processSection mode scope start step rng doc sec st).1 sec).length
      = (sectionPairs doc sec).length ∧
    (processSection mode scope start step rng doc sec st).2.touched
      = st.touched + (sectionPairs doc sec).length ∧
    (processSection mode scope start step rng doc sec st).2.changed
      = st.changed + changedCount (sectionPairs doc sec)
          (sectionPairs (processSection mode scope start step rng doc sec st).1 sec) ∧
    List.Forall₂ writeRel (sectionPairs doc sec)
      (sectionPairs (processSection mode scope start step rng doc sec st).1 sec) ∧
    (∀ k, k ≠ sec →
      objGet (processSection mode scope start step rng doc sec st).1 k = objGet doc k) := by
  match hsec : objGet doc sec with
  | none =>
    have hred : processSection mode scope start step rng doc sec st = (doc, st) := by
      simp [processSection, hsec]
    rw [hred]
    simp [sectionPairs, hsec, changedCount, herr]
  | some .vnull | some (.vbool _) | some (.vint _) | some (.vstr _)
  | some (.vobj _) =>
    have hred : processSection mode scope start step rng doc sec st = (doc, st) := by
      simp [processSection, hsec]
    rw [hred]
    simp [sectionPairs, hsec, changedCount, herr]
  | some (.vlist items) =>
    have hif : items_entries_ok entry_ok items = true := by
      simpa [section_entries_ok, hsec] using hhf
    obtain ⟨h1, h2, h3, h4, h5⟩ :=
      processItems_valid mode scope start step rng hm items st herr hif
    have hred : processSection mode scope start step rng doc sec st
        = (objSet doc sec (.vlist
            (processItems mode scope start step rng items st).1),
           (processItems mode scope start step rng items st).2) := by
      simp [processSection, hsec]
    rw [hred]
    have hsecOut : sectionPairs (objSet doc sec (.vlist
        (processItems mode scope start step rng items st).1)) sec
        = itemsPairs (processItems mode scope start step rng items st).1 := by
      unfold sectionPairs
      rw [objGet_objSet_self]
    have hsecIn : sectionPairs doc sec = itemsPairs items := by
      unfold sectionPairs
      rw [hsec]
    rw [hsecOut, hsecIn]
    refine ⟨h1, h2, h3, h4, h5, fun k hk => objGet_objSet_other doc sec k _ hk⟩

theorem processSections_valid (mode scope : String) (start step : Int) (rng : Nat → Int)
    (hm : mode = "random" ∨ mode = "increment") (secs : List String)
    (hnd : secs.Nodup) (doc : List (String × Val)) (st : RSt) (herr : st.err = none)
    (hhf : doc_entries_ok entry_ok doc secs = true) :
    (processSections mode scope start step rng doc secs st).2.err = none ∧
    (doc_seed_pairs (processSections mode scope start step rng doc secs st).1 secs).length
      = (doc_seed_pairs doc secs).length ∧
    (processSections mode scope start step rng doc secs st).2.touched
      = st.touched + (doc_seed_pairs doc secs).length ∧
    (processSections mode scope start step rng doc secs st).2.changed
      = st.changed + changedCount (doc_seed_pairs doc secs)
          (doc_seed_pairs (processSections mode scope start step rng doc secs st).1 secs) ∧
    List.Forall₂ writeRel (doc_seed_pairs doc secs)
      (doc_seed_pairs (processSections mode scope start step rng doc secs st).1 secs) ∧
    (∀ k, k ∉ secs →
      objGet (processSections mode scope start step rng doc secs st).1 k
        = objGet doc k) := by
  induction secs generalizing doc st with
  | nil => simp [processSections, doc_seed_pairs_nil, changedCount, herr]
  | cons sec rest ih =>
    obtain ⟨hnmem, hndr⟩ := List.nodup_cons.mp hnd
    rw [doc_entries_ok_cons, Bool.and_eq_true] at hhf
    obtain ⟨hhs, hhr⟩ := hhf
    obtain ⟨h1, h2, h3, h4, h5, h6⟩ :=
      processSection_valid mode scope start step rng hm doc sec st herr hhs
    have hhr1 : doc_entries_ok entry_ok
        (processSection mode scope start step rng doc sec st).1 rest = true := by
      rw [doc_entries_ok_congr entry_ok
        (processSection mode scope start step rng doc sec st).1 doc rest
        (fun k hk => h6 k (fun he => hnmem (he ▸ hk)))]
      exact hhr
    obtain ⟨g1, g2, g3, g4, g5, g6⟩ :=
      ih hndr (processSection mode scope start step rng doc sec st).1
        (processSection mode scope start step rng doc sec st).2 h1 hhr1
    rw [processSections_cons]
    set doc1 := (processSection mode scope start step rng doc sec st).1 with hdoc1
    set st1 := (processSection mode scope start step rng doc sec st).2 with hst1
    set fin := (processSections mode scope start step rng doc1 rest st1).1 with hfin
    have hrest_in : doc_seed_pairs doc1 rest = doc_seed_pairs doc rest :=
      doc_seed_pairs_congr doc1 doc rest
        (fun k hk => h6 k (fun he => hnmem (he ▸ hk)))
    have hsec_fin : sectionPairs fin sec = sectionPairs doc1 sec :=
      sectionPairs_congr fin doc1 sec (g6 sec hnmem)
    have hin : doc_seed_pairs doc (sec :: rest)
        = sectionPairs doc sec ++ doc_seed_pairs doc rest := doc_seed_pairs_cons doc sec rest
    have hout : doc_seed_pairs fin (sec :: rest)
        = sectionPairs doc1 sec ++ doc_seed_pairs fin rest := by
      rw [doc_seed_pairs_cons, hsec_fin]
    rw [hin, hout]
    rw [hrest_in] at g2 g3 g4 g5
    refine ⟨g1, ?_, ?_, ?_, ?_, ?_⟩
    · simp only [List.length_append]
      rw [g2, h2]
    · rw [g3, h3]
      simp only [List.length_append]
      omega
    · rw [g4, h4, changedCount_append _ _ _ _ h2.symm]
      omega
    · exact List.rel_append h5 g5
    · intro k hk
      have hk1 : k ≠ sec := fun he => hk (by simp [he])
      have hk2 : k ∉ rest := fun he => hk (by simp [he])
      rw [g6 k hk2, h6 k hk1]

/-- C8, amended: with a valid mode, on a document none of whose traversed
nodes has an unhashable class_type (otherwise the set-membership test raises
TypeError and no counters are returned), reseed returns normally;
nodesTouched counts exactly the nodes with an eligible seed field; the
traversal of eligible fields keeps its length; seedsChanged counts exactly
the fields actually overwritten, which are exactly those whose coerced seed
differs between input and output; and a field whose coerced seed is
unchanged keeps its stored value untouched (no rewrite with an equal
value). -/
theorem reseed_write_policy (doc : List (String × Val)) (mode : String)
    (start step : Int) (scope : String) (rng : Nat → Int) (os : Option (List String))
    (hm : mode = "random" ∨ mode = "increment")
    (hnd : (valid_sections_of os).Nodup)
    (hhf : doc_entries_ok entry_ok doc (valid_sections_of os) = true) :
    (reseed_document doc mode start step scope rng os).2.2.2 = none ∧
    (reseed_document doc mode start step scope rng os).2.1
      = (doc_seed_pairs doc (valid_sections_of os)).length ∧
    (doc_seed_pairs (reseed_document doc mode start step scope rng os).1
        (valid_sections_of os)).length
      = (doc_seed_pairs doc (valid_sections_of os)).length ∧
    (reseed_document doc mode start step scope rng os).2.2.1
      = changedCount (doc_seed_pairs doc (valid_sections_of os))
          (doc_seed_pairs (reseed_document doc mode start step scope rng os).1
            (valid_sections_of os)) ∧
    List.Forall₂ writeRel (doc_seed_pairs doc (valid_sections_of os))
      (doc_seed_pairs (reseed_document doc mode start step scope rng os).1
        (valid_sections_of os)) := by
  obtain ⟨h1, h2, h3, h4, h5, h6⟩ :=
    processSections_valid mode scope start step rng hm (valid_sections_of os) hnd doc
      { seqVal := start, jobSeed := start, rngIdx := 0, touched := 0,
        changed := 0, err := none } rfl hhf
  refine ⟨h1, ?_, h2, ?_, h5⟩
  · rw [show (reseed_document doc mode start step scope rng os).2.1
      = (processSections mode scope start step rng doc (valid_sections_of os)
          { seqVal := start, jobSeed := start, rngIdx := 0, touched := 0,
            changed := 0, err := none }).2.touched from rfl, h3]
    simp
  · rw [show (reseed_document doc mode start step scope rng os).2.2.1
      = (processSections mode scope start step rng doc (valid_sections_of os)
          { seqVal := start, jobSeed := start, rngIdx := 0, touched := 0,
            changed := 0, err := none }).2.changed from rfl,
      show (reseed_document doc mode start step scope rng os).1
      = (processSections mode scope start step rng doc (valid_sections_of os)
          { seqVal := start, jobSeed := start, rngIdx := 0, touched := 0,
            changed := 0, err := none }).1 from rfl, h4]
    simp

/-- A document whose first traversed node has a list-valued class_type (an
unhashable value for the sampler-class set-membership test), followed by an
eligible sampler node carrying seed 999. -/
def docHazard : List (String × Val) :=
  [("queue_pending", .vlist [.vlist [.vint 0, .vstr "id",
    .vobj [("0", .vobj [("class_type", .vlist [])]),
           ("1", .vobj [("class_type", .vstr "KSampler"),
                        ("inputs", .vobj [("seed", .vint 999)])])]]])]

/-- C8, counterexample to the claim as stated: with the valid mode increment,
reseed on a document whose traversal meets a list-valued class_type raises
TypeError from the set membership instead of returning counters, leaving the
document unchanged with zero counts. -/
theorem reseed_write_policy_counterexample :
    reseed_document docHazard "increment" 10 5 "global" (fun _ => 0) none
      = (docHazard, 0, 0, some "unhashable type: list") := rfl

/-- A two-job document, each job holding two eligible sampler nodes. -/
def docTwoJobs : List (String × Val) :=
  [("queue_running", .vlist [.vlist [.vint 0, .vstr "a",
      .vobj [("1", .vobj [("class_type", .vstr "KSampler"),
                          ("inputs", .vobj [("seed", .vint 1)])]),
             ("2", .vobj [("class_type", .vstr "KSampler"),
                          ("inputs", .vobj [("seed", .vint 2)])])]]]),
   ("queue_pending", .vlist [.vlist [.vint 1, .vstr "b",
      .vobj [("3", .vobj [("class_type", .vstr "KSampler"),
                          ("inputs", .vobj [("seed", .vint 3)])]),
             ("4", .vobj [("class_type", .vstr "KSampler"),
                          ("inputs", .vobj [("seed", .vint 4)])])]]])]

/-- C8, witness: the write-policy theorem applied to a concrete document in
increment mode. -/
theorem reseed_write_policy_witness :
    (("increment" : String) = "random" ∨ ("increment" : String) = "increment") ∧
    ((valid_sections_of none).Nodup) ∧
    doc_entries_ok entry_ok docTwoJobs (valid_sections_of none) = true ∧
    ((reseed_document docTwoJobs "increment" 10 5 "global" (fun _ => 0) none).2.2.2
        = none ∧
     (reseed_document docTwoJobs "increment" 10 5 "global" (fun _ => 0) none).2.1
        = (doc_seed_pairs docTwoJobs (valid_sections_of none)).length ∧
     (doc_seed_pairs
         (reseed_document docTwoJobs "increment" 10 5 "global" (fun _ => 0) none).1
         (valid_sections_of none)).length
        = (doc_seed_pairs docTwoJobs (valid_sections_of none)).length ∧
     (reseed_document docTwoJobs "increment" 10 5 "global" (fun _ => 0) none).2.2.1
        = changedCount (doc_seed_pairs docTwoJobs (valid_sections_of none))
            (doc_seed_pairs
              (reseed_document docTwoJobs "increment" 10 5 "global" (fun _ => 0) none).1
              (valid_sections_of none)) ∧
     List.Forall₂ writeRel (doc_seed_pairs docTwoJobs (valid_sections_of none))
       (doc_seed_pairs
         (reseed_document docTwoJobs "increment" 10 5 "global" (fun _ => 0) none).1
         (valid_sections_of none))) :=
  ⟨Or.inr rfl, by decide, by decide,
   reseed_write_policy docTwoJobs "increment" 10 5 "global" (fun _ => 0) none
     (Or.inr rfl) (by decide) (by decide)⟩

theorem processSection_stable (mode scope : String) (start step : Int)
    (rng : Nat → Int) (doc : List (String × Val)) (sec : String) (st : RSt)
    (k : String) (hk : k ≠ sec) :
    objGet (processSection mode scope start step rng doc sec st).1 k = objGet doc k := by
  match hsec : objGet doc sec with
  | none => simp [processSection, hsec]
  | some .vnull | some (.vbool _) | some (.vint _) | some (.vstr _)
  | some (.vobj _) => simp [processSection, hsec]
  | some (.vlist items) =>
    have hred : (processSection mode scope start step rng doc sec st).1
        = objSet doc sec (.vlist
            (processItems mode scope start step rng items st).1) := by
      simp [processSection, hsec]
    rw [hred]
    exact objGet_objSet_other doc sec k _ hk

theorem processSections_stable (mode scope : String) (start step : Int)
    (rng : Nat → Int) (secs : List String) (doc : List (String × Val)) (st : RSt)
    (k : String) (hk : k ∉ secs) :
    objGet (processSections mode scope start step rng doc secs st).1 k
      = objGet doc k := by
  induction secs generalizing doc st with
  | nil => rfl
  | cons sec rest ih =>
    rw [processSections_cons]
    have hk1 : k ≠ sec := fun he => hk (by simp [he])
    have hk2 : k ∉ rest := fun he => hk (by simp [he])
    rw [ih (processSection mode scope start step rng doc sec st).1
      (processSection mode scope start step rng doc sec st).2 hk2]
    exact processSection_stable mode scope start step rng doc sec st k hk1

/-- Reduction of the node step on an eligible node, for any mode, in terms of
the computed seed. -/
theorem processNodeEntry_eligible_run (mode scope : String) (step : Int)
    (rng : Nat → Int) (k : String) (n : List (String × Val)) (st : RSt)
    (herr : st.err = none) (c : Int)
    (hf : find_seed_fields n = .ok [(["inputs", "seed"], c)])
    (v : Int) (stc : RSt)
    (hcs : computeSeed mode scope step rng { st with touched := st.touched + 1 }
      = (some v, stc)) :
    processNodeEntry mode scope step rng (k, .vobj n) st
      = if v = c then ((k, .vobj n), stc)
        else ((k, .vobj (apply_seed n ["inputs", "seed"] v)),
              { stc with changed := stc.changed + 1 }) := by
  rw [herr] at hcs
  by_cases hv : v = c
  · simp [processNodeEntry, herr, hf, processFields, hcs, hv]
  · simp [processNodeEntry, herr, hf, processFields, hcs, hv]

theorem processNodeEntry_inc_global (step : Int) (rng : Nat → Int)
    (p : String × Val) (st : RSt) (herr : st.err = none) (c : Int) (sv : Val)
    (hep : entryPairs p = some (c, sv)) :
    ∃ sv2 : Val,
      entryPairs (processNodeEntry "increment" "global" step rng p st).1
        = some (st.seqVal, sv2) ∧
      (processNodeEntry "increment" "global" step rng p st).2.err = none ∧
      (processNodeEntry "increment" "global" step rng p st).2.seqVal
        = st.seqVal + step := by
  obtain ⟨k, v0⟩ := p
  match v0 with
  | .vnull | .vbool _ | .vint _ | .vstr _ | .vlist _ => simp [entryPairs] at hep
  | .vobj n =>
    rcases find_seed_fields_cases n with ⟨msg, hf, hhz, hpair⟩ |
      ⟨hf, hhz, hpair⟩ |
      ⟨cls, c1, ins, sv1, hf, hct, hcls, hins, hsv, hc, hhz, hpair⟩
    · rw [show entryPairs (k, Val.vobj n) = node_seed_pair n from rfl, hpair] at hep
      exact absurd hep (by simp)
    · rw [show entryPairs (k, Val.vobj n) = node_seed_pair n from rfl,
        node_seed_pair_of_empty n hf] at hep
      exact absurd hep (by simp)
    · have hcs : computeSeed "increment" "global" step rng
          { st with touched := st.touched + 1 }
          = (some st.seqVal,
             { st with touched := st.touched + 1, seqVal := st.seqVal + step }) := rfl
      rw [processNodeEntry_eligible_run "increment" "global" step rng k n st herr c1 hf
        st.seqVal { st with touched := st.touched + 1, seqVal := st.seqVal + step } hcs]
      by_cases hv : st.seqVal = c1
      · rw [if_pos hv]
        refine ⟨sv1, ?_, herr, rfl⟩
        rw [show entryPairs (k, Val.vobj n) = node_seed_pair n from rfl, hpair, hv]
      · rw [if_neg hv]
        obtain ⟨hf2, hp2⟩ := apply_seed_eligible n ins cls sv1 st.seqVal hct hcls hins hsv
        exact ⟨.vint st.seqVal, hp2, herr, rfl⟩

theorem processNodes_inc_global (step : Int) (rng : Nat → Int)
    (nodes : List (String × Val)) (st : RSt) (herr : st.err = none)
    (hhf : nodes.all entry_ok = true) :
    (processNodes "increment" "global" step rng nodes st).2.err = none ∧
    (processNodes "increment" "global" step rng nodes st).2.seqVal
      = st.seqVal + (nodesPairs nodes).length * step ∧
    (nodesPairs (processNodes "increment" "global" step rng nodes st).1).map Prod.fst
      = (List.range (nodesPairs nodes).length).map
          (fun (i : Nat) => st.seqVal + (i : Int) * step) := by
  induction nodes generalizing st with
  | nil => simp [processNodes, nodesPairs, herr]
  | cons p rest ih =>
    rw [List.all_cons, Bool.and_eq_true] at hhf
    obtain ⟨hhp, hhr⟩ := hhf
    rw [processNodes_cons]
    cases hep : entryPairs p with
    | none =>
      have hcl : entry_clear p = true := by
        have hhz : entry_hazard p = false := by simpa [entry_ok] using hhp
        simp [entry_clear, entry_blocks, hhz, hep]
      rw [processNodeEntry_skip "increment" "global" step rng p st hcl]
      obtain ⟨h1, h2, h3⟩ := ih st herr hhr
      rw [nodesPairs_cons p rest, hep,
        nodesPairs_cons p (processNodes "increment" "global" step rng rest st).1, hep]
      simpa using ⟨h1, h2, h3⟩
    | some pr =>
      obtain ⟨c, sv⟩ := pr
      obtain ⟨sv2, hepOut, herrOut, hsq⟩ :=
        processNodeEntry_inc_global step rng p st herr c sv hep
      obtain ⟨h1, h2, h3⟩ :=
        ih (processNodeEntry "increment" "global" step rng p st).2 herrOut hhr
      rw [nodesPairs_cons p rest, hep,
        nodesPairs_cons (processNodeEntry "increment" "global" step rng p st).1
          (processNodes "increment" "global" step rng rest
            (processNodeEntry "increment" "global" step rng p st).2).1, hepOut]
      rw [hsq] at h2 h3
      refine ⟨h1, ?_, ?_⟩
      · rw [h2]
        simp only [Option.toList_some, List.singleton_append, List.length_cons]
        push_cast
        ring
      · simp only [Option.toList_some, List.singleton_append, List.map_cons,
          List.length_cons]
        rw [h3, List.range_succ_eq_map, List.map_cons, List.map_map]
        refine congrArg₂ _ (by simp) ?_
        refine List.map_congr_left ?_
        intro i hi
        simp only [Function.comp_apply, Nat.succ_eq_add_one]
        push_cast
        ring

theorem processItem_inc_global (start step : Int) (rng : Nat → Int)
    (item : Val) (st : RSt) (herr : st.err = none)
    (hhf : item_entries_ok entry_ok item = true) :
    (processItem "increment" "global" start step rng item st).2.err = none ∧
    (processItem "increment" "global" start step rng item st).2.seqVal
      = st.seqVal + (item_seed_pairs item).length * step ∧
    (item_seed_pairs (processItem "increment" "global" start step rng item st).1).map
        Prod.fst
      = (List.range (item_seed_pairs item).length).map
          (fun (i : Nat) => st.seqVal + (i : Int) * step) := by
  have herr0 : (RSt.mk st.seqVal start st.rngIdx st.touched st.changed st.err).err
      = none := herr
  match item with
  | .vnull =>
    have hout : processItem "increment" "global" start step rng Val.vnull st
        = (Val.vnull, { st with jobSeed := start }) := rfl
    rw [hout]
    exact ⟨herr, by simp [item_seed_pairs, iter_nodes_from_item],
      by simp [item_seed_pairs, iter_nodes_from_item]⟩
  | .vbool b0 =>
    have hout : processItem "increment" "global" start step rng (Val.vbool b0) st
        = (Val.vbool b0, { st with jobSeed := start }) := rfl
    rw [hout]
    exact ⟨herr, by simp [item_seed_pairs, iter_nodes_from_item],
      by simp [item_seed_pairs, iter_nodes_from_item]⟩
  | .vint m0 =>
    have hout : processItem "increment" "global" start step rng (Val.vint m0) st
        = (Val.vint m0, { st with jobSeed := start }) := rfl
    rw [hout]
    exact ⟨herr, by simp [item_seed_pairs, iter_nodes_from_item],
      by simp [item_seed_pairs, iter_nodes_from_item]⟩
  | .vstr t0 =>
    have hout : processItem "increment" "global" start step rng (Val.vstr t0) st
        = (Val.vstr t0, { st with jobSeed := start }) := rfl
    rw [hout]
    exact ⟨herr, by simp [item_seed_pairs, iter_nodes_from_item],
      by simp [item_seed_pairs, iter_nodes_from_item]⟩
  | .vobj nodes =>
    rw [item_entries_ok_vobj entry_ok entry_ok_of_not_vobj nodes] at hhf
    obtain ⟨h1, h2, h3⟩ := processNodes_inc_global step rng nodes
      { st with jobSeed := start } herr0 hhf
    have hout : processItem "increment" "global" start step rng (.vobj nodes) st
        = (.vobj (processNodes "increment" "global" step rng nodes
             { st with jobSeed := start }).1,
           (processNodes "increment" "global" step rng nodes
             { st with jobSeed := start }).2) := rfl
    rw [hout]
    dsimp only
    rw [item_seed_pairs_vobj, item_seed_pairs_vobj]
    exact ⟨h1, h2, h3⟩
  | .vlist l =>
    match hg : l.get? 2 with
    | some (.vobj nodes) =>
      have hg2 : l[2]? = some (Val.vobj nodes) := by simpa using hg
      rw [item_entries_ok_vlist entry_ok entry_ok_of_not_vobj l nodes hg] at hhf
      obtain ⟨h1, h2, h3⟩ := processNodes_inc_global step rng nodes
        { st with jobSeed := start } herr0 hhf
      have hout : processItem "increment" "global" start step rng (.vlist l) st
          = (.vlist (l.set 2 (.vobj
              (processNodes "increment" "global" step rng nodes
                { st with jobSeed := start }).1)),
             (processNodes "increment" "global" step rng nodes
               { st with jobSeed := start }).2) := by
        simp [processItem, hg2]
      have hgset : (l.set 2 (.vobj
          (processNodes "increment" "global" step rng nodes
            { st with jobSeed := start }).1)).get? 2
          = some (.vobj
              (processNodes "increment" "global" step rng nodes
                { st with jobSeed := start }).1) :=
        list_get_set l 2 _ (by rw [hg]; rfl)
      rw [hout]
      dsimp only
      rw [item_seed_pairs_vlist l nodes hg, item_seed_pairs_vlist _ _ hgset]
      exact ⟨h1, h2, h3⟩
    | none =>
      have hg2 : l[2]? = (none : Option Val) := by simpa using hg
      have hout : processItem "increment" "global" start step rng (.vlist l) st
          = (.vlist l, { st with jobSeed := start }) := by
        simp [processItem, hg2]
      rw [hout]
      exact ⟨herr, by simp [item_seed_pairs, iter_nodes_from_item, hg2],
        by simp [item_seed_pairs, iter_nodes_from_item, hg2]⟩
    | some .vnull =>
      have hg2 : l[2]? = some Val.vnull := by simpa using hg
      have hout : processItem "increment" "global" start step rng (.vlist l) st
          = (.vlist l, { st with jobSeed := start }) := by
        simp [processItem, hg2]
      rw [hout]
      exact ⟨herr, by simp [item_seed_pairs, iter_nodes_from_item, hg2],
        by simp [item_seed_pairs, iter_nodes_from_item, hg2]⟩
    | some (.vbool b) =>
      have hg2 : l[2]? = some (Val.vbool b) := by simpa using hg
      have hout : processItem "increment" "global" start step rng (.vlist l) st
          = (.vlist l, { st with jobSeed := start }) := by
        simp [processItem, hg2]
      rw [hout]
      exact ⟨herr, by simp [item_seed_pairs, iter_nodes_from_item, hg2],
        by simp [item_seed_pairs, iter_nodes_from_item, hg2]⟩
    | some (.vint m) =>
      have hg2 : l[2]? = some (Val.vint m) := by simpa using hg
      have hout : processItem "increment" "global" start step rng (.vlist l) st
          = (.vlist l, { st with jobSeed := start }) := by
        simp [processItem, hg2]
      rw [hout]
      exact ⟨herr, by simp [item_seed_pairs, iter_nodes_from_item, hg2],
        by simp [item_seed_pairs, iter_nodes_from_item, hg2]⟩
    | some (.vstr t) =>
      have hg2 : l[2]? = some (Val.vstr t) := by simpa using hg
      have hout : processItem "increment" "global" start step rng (.vlist l) st
          = (.vlist l, { st with jobSeed := start }) := by
        simp [processItem, hg2]
      rw [hout]
      exact ⟨herr, by simp [item_seed_pairs, iter_nodes_from_item, hg2],
        by simp [item_seed_pairs, iter_nodes_from_item, hg2]⟩
    | some (.vlist l2) =>
      have hg2 : l[2]? = some (Val.vlist l2) := by simpa using hg
      have hout : processItem "increment" "global" start step rng (.vlist l) st
          = (.vlist l, { st with jobSeed := start }) := by
        simp [processItem, hg2]
      rw [hout]
      exact ⟨herr, by simp [item_seed_pairs, iter_nodes_from_item, hg2],
        by simp [item_seed_pairs, iter_nodes_from_item, hg2]⟩

theorem range_map_shift (a b : Nat) (base step : Int) :
    (List.range (a + b)).map (fun (i : Nat) => base + (i : Int) * step)
      = (List.range a).map (fun (i : Nat) => base + (i : Int) * step)
        ++ (List.range b).map
            (fun (i : Nat) => (base + (a : Int) * step) + (i : Int) * step) := by
  rw [List.range_add, List.map_append, List.map_map]
  refine congrArg₂ _ rfl (List.map_congr_left ?_)
  intro i hi
  simp only [Function.comp_apply]
  push_cast
  ring

theorem processItems_inc_global (start step : Int) (rng : Nat → Int)
    (items : List Val) (st : RSt) (herr : st.err = none)
    (hhf : items_entries_ok entry_ok items = true) :
    (processItems "increment" "global" start step rng items st).2.err = none ∧
    (processItems "increment" "global" start step rng items st).2.seqVal
      = st.seqVal + (itemsPairs items).length * step ∧
    (itemsPairs (processItems "increment" "global" start step rng items st).1).map
        Prod.fst
      = (List.range (itemsPairs items).length).map
          (fun (i : Nat) => st.seqVal + (i : Int) * step) := by
  induction items generalizing st with
  | nil => simp [processItems, itemsPairs, herr]
  | cons it rest ih =>
    rw [items_entries_ok_cons, Bool.and_eq_true] at hhf
    obtain ⟨hhi, hhr⟩ := hhf
    by_cases hok : queue_item_ok it
    · have hii : item_entries_ok entry_ok it = true := by
        simpa [hok] using hhi
      rw [processItems_cons_ok "increment" "global" start step rng it rest st herr hok]
      obtain ⟨h1, h2, h3⟩ := processItem_inc_global start step rng it st herr hii
      have h6 := (processItem_valid "increment" "global" start step rng
        (Or.inr rfl) it st herr hii).2.2.2.2.2
      obtain ⟨g1, g2, g3⟩ :=
        ih (processItem "increment" "global" start step rng it st).2 h1 hhr
      rw [itemsPairs_cons it rest,
        itemsPairs_cons (processItem "increment" "global" start step rng it st).1
          (processItems "increment" "global" start step rng rest
            (processItem "increment" "global" start step rng it st).2).1,
        h6]
      simp only [hok, if_true]
      rw [h2] at g2 g3
      refine ⟨g1, ?_, ?_⟩
      · rw [g2]
        simp only [List.length_append]
        push_cast
        ring
      · rw [List.map_append, h3, g3]
        simp only [List.length_append]
        rw [range_map_shift]
    · rw [processItems_cons_skip "increment" "global" start step rng it rest st herr
        (by simpa using hok)]
      obtain ⟨g1, g2, g3⟩ := ih st herr hhr
      rw [itemsPairs_cons it rest, itemsPairs_cons it
        (processItems "increment" "global" start step rng rest st).1]
      simp only [hok, if_false]
      exact ⟨g1, by simpa using g2, by simpa using g3⟩

theorem processSection_inc_global (start step : Int) (rng : Nat → Int)
    (doc : List (String × Val)) (sec : String) (st : RSt) (herr : st.err = none)
    (hhf : section_entries_ok entry_ok doc sec = true) :
    (processSection "increment" "global" start step rng doc sec st).2.err = none ∧
    (processSection "increment" "global" start step rng doc sec st).2.seqVal
      = st.seqVal + (sectionPairs doc sec).length * step ∧
    (sectionPairs (processSection "increment" "global" start step rng doc sec st).1
        sec).map Prod.fst
      = (List.range (sectionPairs doc sec).length).map
          (fun (i : Nat) => st.seqVal + (i : Int) * step) := by
  match hsec : objGet doc sec with
  | none =>
    have hred : processSection "increment" "global" start step rng doc sec st
        = (doc, st) := by
      simp [processSection, hsec]
    rw [hred]
    simp [sectionPairs, hsec, herr]
  | some .vnull | some (.vbool _) | some (.vint _) | some (.vstr _)
  | some (.vobj _) =>
    have hred : processSection "increment" "global" start step rng doc sec st
        = (doc, st) := by
      simp [processSection, hsec]
    rw [hred]
    simp [sectionPairs, hsec, herr]
  | some (.vlist items) =>
    have hif : items_entries_ok entry_ok items = true := by
      simpa [section_entries_ok, hsec] using hhf
    obtain ⟨h1, h2, h3⟩ := processItems_inc_global start step rng items st herr hif
    have hred : processSection "increment" "global" start step rng doc sec st
        = (objSet doc sec (.vlist
            (processItems "increment" "global" start step rng items st).1),
           (processItems "increment" "global" start step rng items st).2) := by
      simp [processSection, hsec]
    rw [hred]
    have hsecOut : sectionPairs (objSet doc sec (.vlist
        (processItems "increment" "global" start step rng items st).1)) sec
        = itemsPairs (processItems "increment" "global" start step rng items st).1 := by
      unfold sectionPairs
      rw [objGet_objSet_self]
    have hsecIn : sectionPairs doc sec = itemsPairs items := by
      unfold sectionPairs
      rw [hsec]
    rw [hsecOut, hsecIn]
    exact ⟨h1, h2, h3⟩

theorem processSections_inc_global (start step : Int) (rng : Nat → Int)
    (secs : List String) (hnd : secs.Nodup) (doc : List (String × Val)) (st : RSt)
    (herr : st.err = none) (hhf : doc_entries_ok entry_ok doc secs = true) :
    (processSections "increment" "global" start step rng doc secs st).2.err = none ∧
    (processSections "increment" "global" start step rng doc secs st).2.seqVal
      = st.seqVal + (doc_seed_pairs doc secs).length * step ∧
    (doc_seed_pairs
        (processSections "increment" "global" start step rng doc secs st).1 secs).map
        Prod.fst
      = (List.range (doc_seed_pairs doc secs).length).map
          (fun (i : Nat) => st.seqVal + (i : Int) * step) := by
  induction secs generalizing doc st with
  | nil => simp [processSections, doc_seed_pairs_nil, herr]
  | cons sec rest ih =>
    obtain ⟨hnmem, hndr⟩ := List.nodup_cons.mp hnd
    rw [doc_entries_ok_cons, Bool.and_eq_true] at hhf
    obtain ⟨hhs, hhr⟩ := hhf
    obtain ⟨h1, h2, h3⟩ := processSection_inc_global start step rng doc sec st herr hhs
    have hhr1 : doc_entries_ok entry_ok
        (processSection "increment" "global" start step rng doc sec st).1 rest
        = true := by
      rw [doc_entries_ok_congr entry_ok
        (processSection "increment" "global" start step rng doc sec st).1 doc rest
        (fun k hk => processSection_stable "increment" "global" start step rng doc sec
          st k (fun he => hnmem (he ▸ hk)))]
      exact hhr
    obtain ⟨g1, g2, g3⟩ :=
      ih hndr (processSection "increment" "global" start step rng doc sec st).1
        (processSection "increment" "global" start step rng doc sec st).2 h1 hhr1
    rw [processSections_cons]
    set doc1 := (processSection "increment" "global" start step rng doc sec st).1
      with hdoc1
    set st1 := (processSection "increment" "global" start step rng doc sec st).2
      with hst1
    set fin := (processSections "increment" "global" start step rng doc1 rest st1).1
      with hfin
    have hrest_in : doc_seed_pairs doc1 rest = doc_seed_pairs doc rest :=
      doc_seed_pairs_congr doc1 doc rest
        (fun k hk => processSection_stable "increment" "global" start step rng doc sec
          st k (fun he => hnmem (he ▸ hk)))
    have hsec_fin : sectionPairs fin sec = sectionPairs doc1 sec :=
      sectionPairs_congr fin doc1 sec
        (processSections_stable "increment" "global" start step rng rest doc1 st1 sec
          hnmem)
    have hin : doc_seed_pairs doc (sec :: rest)
        = sectionPairs doc sec ++ doc_seed_pairs doc rest :=
      doc_seed_pairs_cons doc sec rest
    have hout : doc_seed_pairs fin (sec :: rest)
        = sectionPairs doc1 sec ++ doc_seed_pairs fin rest := by
      rw [doc_seed_pairs_cons, hsec_fin]
    rw [hin, hout]
    rw [hrest_in, h2] at g2 g3
    refine ⟨g1, ?_, ?_⟩
    · rw [g2]
      simp only [List.length_append]
      push_cast
      ring
    · rw [List.map_append, h3, g3]
      simp only [List.length_append]
      rw [range_map_shift]

/-- C5, amended: in increment mode with global scope, on a document none of
whose traversed nodes has an unhashable class_type (otherwise the
set-membership test raises TypeError and aborts the traversal), the coerced
seed values of the eligible fields after the call form, in traversal order
across all jobs and sections, the arithmetic sequence start, start plus
step, start plus two step, and so on, shared across the whole traversal. -/
theorem reseed_increment_global_seeds (doc : List (String × Val))
    (start step : Int) (rng : Nat → Int) (os : Option (List String))
    (hnd : (valid_sections_of os).Nodup)
    (hhf : doc_entries_ok entry_ok doc (valid_sections_of os) = true) :
    doc_seeds (reseed_document doc "increment" start step "global" rng os).1
        (valid_sections_of os)
      = (List.range (doc_seeds doc (valid_sections_of os)).length).map
          (fun (i : Nat) => start + (i : Int) * step) := by
  obtain ⟨h1, h2, h3⟩ := processSections_inc_global start step rng
    (valid_sections_of os) hnd doc
    { seqVal := start, jobSeed := start, rngIdx := 0, touched := 0,
      changed := 0, err := none } rfl hhf
  show (doc_seed_pairs (processSections "increment" "global" start step rng doc
      (valid_sections_of os)
      { seqVal := start, jobSeed := start, rngIdx := 0, touched := 0,
        changed := 0, err := none }).1 (valid_sections_of os)).map Prod.fst = _
  rw [h3]
  rw [show doc_seeds doc (valid_sections_of os)
    = (doc_seed_pairs doc (valid_sections_of os)).map Prod.fst from rfl]
  rw [List.length_map]

/-- C5, counterexample to the claim as stated: in increment global mode with
start 10 and step 5, on a document whose traversal meets a list-valued
class_type before its eligible sampler node, the call raises TypeError and
the eligible seed keeps its old value 999 instead of receiving 10, the first
value of the arithmetic sequence. -/
theorem reseed_increment_global_hazard :
    (reseed_document docHazard "increment" 10 5 "global" (fun _ => 0) none).2.2.2
      = some "unhashable type: list" ∧
    doc_seeds (reseed_document docHazard "increment" 10 5 "global"
        (fun _ => 0) none).1 (valid_sections_of none) = [999] ∧
    (List.range (doc_seeds docHazard (valid_sections_of none)).length).map
        (fun (i : Nat) => (10 : Int) + (i : Int) * 5) = [10] ∧
    ([(999 : Int)] : List Int) ≠ [(10 : Int)] :=
  ⟨rfl, rfl, by decide, by decide⟩

/-- C5, witness: two jobs with two eligible sampler nodes each, start 10 and
step 5 in global scope, receive the seeds 10, 15, 20, 25. -/
theorem reseed_increment_global_seeds_witness :
    (valid_sections_of none).Nodup ∧
    doc_entries_ok entry_ok docTwoJobs (valid_sections_of none) = true ∧
    doc_seeds (reseed_document docTwoJobs "increment" 10 5 "global"
        (fun _ => 0) none).1 (valid_sections_of none) = [10, 15, 20, 25] := by
  refine ⟨by decide, by decide, ?_⟩
  rw [reseed_increment_global_seeds docTwoJobs 10 5 (fun _ => 0) none (by decide)
    (by decide)]
  decide

/-- The list of seed lists of the processed items of one section list, one
entry per traversed item. -/
def items_seed_lists (items : List Val) : List (List Int) :=
  items.filterMap (fun it =>
    if queue_item_ok it then some (item_seeds it) else none)

/-- The seed lists of one requested section. -/
def section_seed_lists (doc : List (String × Val)) (sec : String) : List (List Int) :=
  match objGet doc sec with
  | some (.vlist items) => items_seed_lists items
  | _ => []

/-- The per-job seed lists of a document restricted to the given sections,
one entry per traversed item, in traversal order. -/
def doc_seed_lists (doc : List (String × Val)) (which : List String) :
    List (List Int) :=
  (iter_queue_items doc which).map (fun t => item_seeds t.2.2)

theorem enumFrom_filterMap_lists (items : List Val) (k : Nat) (sec : String) :
    ((items.enumFrom k).filterMap
        (fun p => if queue_item_ok p.2 then some (sec, p.1, p.2) else none)).map
        (fun t => item_seeds t.2.2)
      = items_seed_lists items := by
  induction items generalizing k with
  | nil => rfl
  | cons it rest ih =>
    have hits : items_seed_lists (it :: rest)
        = (if queue_item_ok it then [item_seeds it] else []) ++ items_seed_lists rest := by
      by_cases h : queue_item_ok it <;> simp [items_seed_lists, h]
    rw [hits, ← ih (k + 1)]
    by_cases h : queue_item_ok it <;>
      simp [List.enumFrom, List.filterMap_cons, h]

theorem doc_seed_lists_cons (doc : List (String × Val)) (sec : String)
    (rest : List String) :
    doc_seed_lists doc (sec :: rest)
      = section_seed_lists doc sec ++ doc_seed_lists doc rest := by
  unfold doc_seed_lists iter_queue_items section_seed_lists
  rw [List.flatMap_cons, List.map_append]
  congr 1
  match hsec : objGet doc sec with
  | none => rfl
  | some .vnull | some (.vbool _) | some (.vint _) | some (.vstr _)
  | some (.vobj _) => rfl
  | some (.vlist items) =>
    have := enumFrom_filterMap_lists items 0 sec
    simpa [List.enum] using this

theorem doc_seed_lists_nil (doc : List (String × Val)) : doc_seed_lists doc [] = [] := rfl

theorem section_seed_lists_congr (d1 d2 : List (String × Val)) (k : String)
    (h : objGet d1 k = objGet d2 k) : section_seed_lists d1 k = section_seed_lists d2 k := by
  unfold section_seed_lists
  rw [h]

theorem doc_seed_lists_congr (d1 d2 : List (String × Val)) (secs : List String)
    (h : ∀ k ∈ secs, objGet d1 k = objGet d2 k) :
    doc_seed_lists d1 secs = doc_seed_lists d2 secs := by
  induction secs with
  | nil => rfl
  | cons sec rest ih =>
    rw [doc_seed_lists_cons, doc_seed_lists_cons,
      section_seed_lists_congr d1 d2 sec (h sec (by simp)),
      ih (fun k hk => h k (by simp [hk]))]

theorem processNodeEntry_inc_job (step : Int) (rng : Nat → Int)
    (p : String × Val) (st : RSt) (herr : st.err = none) (c : Int) (sv : Val)
    (hep : entryPairs p = some (c, sv)) :
    ∃ sv2 : Val,
      entryPairs (processNodeEntry "increment" "job" step rng p st).1
        = some (st.jobSeed, sv2) ∧
      (processNodeEntry "increment" "job" step rng p st).2.err = none ∧
      (processNodeEntry "increment" "job" step rng p st).2.jobSeed
        = st.jobSeed + step := by
  obtain ⟨k, v0⟩ := p
  match v0 with
  | .vnull | .vbool _ | .vint _ | .vstr _ | .vlist _ => simp [entryPairs] at hep
  | .vobj n =>
    rcases find_seed_fields_cases n with ⟨msg, hf, hhz, hpair⟩ |
      ⟨hf, hhz, hpair⟩ |
      ⟨cls, c1, ins, sv1, hf, hct, hcls, hins, hsv, hc, hhz, hpair⟩
    · rw [show entryPairs (k, Val.vobj n) = node_seed_pair n from rfl, hpair] at hep
      exact absurd hep (by simp)
    · rw [show entryPairs (k, Val.vobj n) = node_seed_pair n from rfl,
        node_seed_pair_of_empty n hf] at hep
      exact absurd hep (by simp)
    · have hcs : computeSeed "increment" "job" step rng
          { st with touched := st.touched + 1 }
          = (some st.jobSeed,
             { st with touched := st.touched + 1, jobSeed := st.jobSeed + step }) := rfl
      rw [processNodeEntry_eligible_run "increment" "job" step rng k n st herr c1 hf
        st.jobSeed { st with touched := st.touched + 1, jobSeed := st.jobSeed + step } hcs]
      by_cases hv : st.jobSeed = c1
      · rw [if_pos hv]
        refine ⟨sv1, ?_, herr, rfl⟩
        rw [show entryPairs (k, Val.vobj n) = node_seed_pair n from rfl, hpair, hv]
      · rw [if_neg hv]
        obtain ⟨hf2, hp2⟩ := apply_seed_eligible n ins cls sv1 st.jobSeed hct hcls hins hsv
        exact ⟨.vint st.jobSeed, hp2, herr, rfl⟩

theorem processNodes_inc_job (step : Int) (rng : Nat → Int)
    (nodes : List (String × Val)) (st : RSt) (herr : st.err = none)
    (hhf : nodes.all entry_ok = true) :
    (processNodes "increment" "job" step rng nodes st).2.err = none ∧
    (processNodes "increment" "job" step rng nodes st).2.jobSeed
      = st.jobSeed + (nodesPairs nodes).length * step ∧
    (nodesPairs (processNodes "increment" "job" step rng nodes st).1).map Prod.fst
      = (List.range (nodesPairs nodes).length).map
          (fun (i : Nat) => st.jobSeed + (i : Int) * step) := by
  induction nodes generalizing st with
  | nil => simp [processNodes, nodesPairs, herr]
  | cons p rest ih =>
    rw [List.all_cons, Bool.and_eq_true] at hhf
    obtain ⟨hhp, hhr⟩ := hhf
    rw [processNodes_cons]
    cases hep : entryPairs p with
    | none =>
      have hcl : entry_clear p = true := by
        have hhz : entry_hazard p = false := by simpa [entry_ok] using hhp
        simp [entry_clear, entry_blocks, hhz, hep]
      rw [processNodeEntry_skip "increment" "job" step rng p st hcl]
      obtain ⟨h1, h2, h3⟩ := ih st herr hhr
      rw [nodesPairs_cons p rest, hep,
        nodesPairs_cons p (processNodes "increment" "job" step rng rest st).1, hep]
      simpa using ⟨h1, h2, h3⟩
    | some pr =>
      obtain ⟨c, sv⟩ := pr
      obtain ⟨sv2, hepOut, herrOut, hsq⟩ :=
        processNodeEntry_inc_job step rng p st herr c sv hep
      obtain ⟨h1, h2, h3⟩ :=
        ih (processNodeEntry "increment" "job" step rng p st).2 herrOut hhr
      rw [nodesPairs_cons p rest, hep,
        nodesPairs_cons (processNodeEntry "increment" "job" step rng p st).1
          (processNodes "increment" "job" step rng rest
            (processNodeEntry "increment" "job" step rng p st).2).1, hepOut]
      rw [hsq] at h2 h3
      refine ⟨h1, ?_, ?_⟩
      · rw [h2]
        simp only [Option.toList_some, List.singleton_append, List.length_cons]
        push_cast
        ring
      · simp only [Option.toList_some, List.singleton_append, List.map_cons,
          List.length_cons]
        rw [h3, List.range_succ_eq_map, List.map_cons, List.map_map]
        refine congrArg₂ _ (by simp) ?_
        refine List.map_congr_left ?_
        intro i hi
        simp only [Function.comp_apply, Nat.succ_eq_add_one]
        push_cast
        ring

theorem items_seed_lists_cons (it : Val) (rest : List Val) :
    items_seed_lists (it :: rest)
      = (if queue_item_ok it then [item_seeds it] else []) ++ items_seed_lists rest := by
  by_cases h : queue_item_ok it <;> simp [items_seed_lists, h]

theorem processItem_inc_job (start step : Int) (rng : Nat → Int)
    (item : Val) (st : RSt) (herr : st.err = none)
    (hhf : item_entries_ok entry_ok item = true) :
    (processItem "increment" "job" start step rng item st).2.err = none ∧
    item_seeds (processItem "increment" "job" start step rng item st).1
      = (List.range (item_seeds item).length).map
          (fun (i : Nat) => start + (i : Int) * step) := by
  have herr0 : (RSt.mk st.seqVal start st.rngIdx st.touched st.changed st.err).err
      = none := herr
  match item with
  | .vnull =>
    have hout : processItem "increment" "job" start step rng Val.vnull st
        = (Val.vnull, { st with jobSeed := start }) := rfl
    rw [hout]
    exact ⟨herr, by simp [item_seeds, item_seed_pairs, iter_nodes_from_item]⟩
  | .vbool b0 =>
    have hout : processItem "increment" "job" start step rng (Val.vbool b0) st
        = (Val.vbool b0, { st with jobSeed := start }) := rfl
    rw [hout]
    exact ⟨herr, by simp [item_seeds, item_seed_pairs, iter_nodes_from_item]⟩
  | .vint m0 =>
    have hout : processItem "increment" "job" start step rng (Val.vint m0) st
        = (Val.vint m0, { st with jobSeed := start }) := rfl
    rw [hout]
    exact ⟨herr, by simp [item_seeds, item_seed_pairs, iter_nodes_from_item]⟩
  | .vstr t0 =>
    have hout : processItem "increment" "job" start step rng (Val.vstr t0) st
        = (Val.vstr t0, { st with jobSeed := start }) := rfl
    rw [hout]
    exact ⟨herr, by simp [item_seeds, item_seed_pairs, iter_nodes_from_item]⟩
  | .vobj nodes =>
    rw [item_entries_ok_vobj entry_ok entry_ok_of_not_vobj nodes] at hhf
    obtain ⟨h1, h2, h3⟩ := processNodes_inc_job step rng nodes
      { st with jobSeed := start } herr0 hhf
    have hout : processItem "increment" "job" start step rng (.vobj nodes) st
        = (.vobj (processNodes "increment" "job" step rng nodes
             { st with jobSeed := start }).1,
           (processNodes "increment" "job" step rng nodes
             { st with jobSeed := start }).2) := rfl
    rw [hout]
    dsimp only
    refine ⟨h1, ?_⟩
    unfold item_seeds
    rw [item_seed_pairs_vobj, item_seed_pairs_vobj, h3, List.length_map]
  | .vlist l =>
    match hg : l.get? 2 with
    | some (.vobj nodes) =>
      have hg2 : l[2]? = some (Val.vobj nodes) := by simpa using hg
      rw [item_entries_ok_vlist entry_ok entry_ok_of_not_vobj l nodes hg] at hhf
      obtain ⟨h1, h2, h3⟩ := processNodes_inc_job step rng nodes
        { st with jobSeed := start } herr0 hhf
      have hout : processItem "increment" "job" start step rng (.vlist l) st
          = (.vlist (l.set 2 (.vobj
              (processNodes "increment" "job" step rng nodes
                { st with jobSeed := start }).1)),
             (processNodes "increment" "job" step rng nodes
               { st with jobSeed := start }).2) := by
        simp [processItem, hg2]
      have hgset : (l.set 2 (.vobj
          (processNodes "increment" "job" step rng nodes
            { st with jobSeed := start }).1)).get? 2
          = some (.vobj
              (processNodes "increment" "job" step rng nodes
                { st with jobSeed := start }).1) :=
        list_get_set l 2 _ (by rw [hg]; rfl)
      rw [hout]
      dsimp only
      refine ⟨h1, ?_⟩
      unfold item_seeds
      rw [item_seed_pairs_vlist l nodes hg, item_seed_pairs_vlist _ _ hgset, h3,
        List.length_map]
    | none =>
      have hg2 : l[2]? = (none : Option Val) := by simpa using hg
      have hout : processItem "increment" "job" start step rng (.vlist l) st
          = (.vlist l, { st with jobSeed := start }) := by
        simp [processItem, hg2]
      rw [hout]
      exact ⟨herr, by simp [item_seeds, item_seed_pairs, iter_nodes_from_item, hg2]⟩
    | some .vnull =>
      have hg2 : l[2]? = some Val.vnull := by simpa using hg
      have hout : processItem "increment" "job" start step rng (.vlist l) st
          = (.vlist l, { st with jobSeed := start }) := by
        simp [processItem, hg2]
      rw [hout]
      exact ⟨herr, by simp [item_seeds, item_seed_pairs, iter_nodes_from_item, hg2]⟩
    | some (.vbool b) =>
      have hg2 : l[2]? = some (Val.vbool b) := by simpa using hg
      have hout : processItem "increment" "job" start step rng (.vlist l) st
          = (.vlist l, { st with jobSeed := start }) := by
        simp [processItem, hg2]
      rw [hout]
      exact ⟨herr, by simp [item_seeds, item_seed_pairs, iter_nodes_from_item, hg2]⟩
    | some (.vint m) =>
      have hg2 : l[2]? = some (Val.vint m) := by simpa using hg
      have hout : processItem "increment" "job" start step rng (.vlist l) st
          = (.vlist l, { st with jobSeed := start }) := by
        simp [processItem, hg2]
      rw [hout]
      exact ⟨herr, by simp [item_seeds, item_seed_pairs, iter_nodes_from_item, hg2]⟩
    | some (.vstr t) =>
      have hg2 : l[2]? = some (Val.vstr t) := by simpa using hg
      have hout : processItem "increment" "job" start step rng (.vlist l) st
          = (.vlist l, { st with jobSeed := start }) := by
        simp [processItem, hg2]
      rw [hout]
      exact ⟨herr, by simp [item_seeds, item_seed_pairs, iter_nodes_from_item, hg2]⟩
    | some (.vlist l2) =>
      have hg2 : l[2]? = some (Val.vlist l2) := by simpa using hg
      have hout : processItem "increment" "job" start step rng (.vlist l) st
          = (.vlist l, { st with jobSeed := start }) := by
        simp [processItem, hg2]
      rw [hout]
      exact ⟨herr, by simp [item_seeds, item_seed_pairs, iter_nodes_from_item, hg2]⟩

theorem processItems_inc_job (start step : Int) (rng : Nat → Int)
    (items : List Val) (st : RSt) (herr : st.err = none)
    (hhf : items_entries_ok entry_ok items = true) :
    (processItems "increment" "job" start step rng items st).2.err = none ∧
    items_seed_lists (processItems "increment" "job" start step rng items st).1
      = (items_seed_lists items).map
          (fun l => (List.range l.length).map
            (fun (i : Nat) => start + (i : Int) * step)) := by
  induction items generalizing st with
  | nil => simp [processItems, items_seed_lists, herr]
  | cons it rest ih =>
    rw [items_entries_ok_cons, Bool.and_eq_true] at hhf
    obtain ⟨hhi, hhr⟩ := hhf
    by_cases hok : queue_item_ok it
    · have hii : item_entries_ok entry_ok it = true := by
        simpa [hok] using hhi
      rw [processItems_cons_ok "increment" "job" start step rng it rest st herr hok]
      obtain ⟨h1, h2⟩ := processItem_inc_job start step rng it st herr hii
      have h6 := (processItem_valid "increment" "job" start step rng
        (Or.inr rfl) it st herr hii).2.2.2.2.2
      obtain ⟨g1, g2⟩ :=
        ih (processItem "increment" "job" start step rng it st).2 h1 hhr
      rw [items_seed_lists_cons it rest,
        items_seed_lists_cons (processItem "increment" "job" start step rng it st).1
          (processItems "increment" "job" start step rng rest
            (processItem "increment" "job" start step rng it st).2).1,
        h6]
      simp only [hok, if_true]
      refine ⟨g1, ?_⟩
      rw [g2, h2]
      simp
    · rw [processItems_cons_skip "increment" "job" start step rng it rest st herr
        (by simpa using hok)]
      obtain ⟨g1, g2⟩ := ih st herr hhr
      rw [items_seed_lists_cons it rest, items_seed_lists_cons it
        (processItems "increment" "job" start step rng rest st).1]
      simp only [hok, if_false]
      exact ⟨g1, by simpa using g2⟩

theorem processSection_inc_job (start step : Int) (rng : Nat → Int)
    (doc : List (String × Val)) (sec : String) (st : RSt) (herr : st.err = none)
    (hhf : section_entries_ok entry_ok doc sec = true) :
    (processSection "increment" "job" start step rng doc sec st).2.err = none ∧
    section_seed_lists (processSection "increment" "job" start step rng doc sec st).1
        sec
      = (section_seed_lists doc sec).map
          (fun l => (List.range l.length).map
            (fun (i : Nat) => start + (i : Int) * step)) := by
  match hsec : objGet doc sec with
  | none =>
    have hred : processSection "increment" "job" start step rng doc sec st
        = (doc, st) := by
      simp [processSection, hsec]
    rw [hred]
    simp [section_seed_lists, hsec, herr]
  | some .vnull | some (.vbool _) | some (.vint _) | some (.vstr _)
  | some (.vobj _) =>
    have hred : processSection "increment" "job" start step rng doc sec st
        = (doc, st) := by
      simp [processSection, hsec]
    rw [hred]
    simp [section_seed_lists, hsec, herr]
  | some (.vlist items) =>
    have hif : items_entries_ok entry_ok items = true := by
      simpa [section_entries_ok, hsec] using hhf
    obtain ⟨h1, h2⟩ := processItems_inc_job start step rng items st herr hif
    have hred : processSection "increment" "job" start step rng doc sec st
        = (objSet doc sec (.vlist
            (processItems "increment" "job" start step rng items st).1),
           (processItems "increment" "job" start step rng items st).2) := by
      simp [processSection, hsec]
    rw [hred]
    have hsecOut : section_seed_lists (objSet doc sec (.vlist
        (processItems "increment" "job" start step rng items st).1)) sec
        = items_seed_lists
            (processItems "increment" "job" start step rng items st).1 := by
      unfold section_seed_lists
      rw [objGet_objSet_self]
    have hsecIn : section_seed_lists doc sec = items_seed_lists items := by
      unfold section_seed_lists
      rw [hsec]
    rw [hsecOut, hsecIn]
    exact ⟨h1, h2⟩

theorem processSections_inc_job (start step : Int) (rng : Nat → Int)
    (secs : List String) (hnd : secs.Nodup) (doc : List (String × Val)) (st : RSt)
    (herr : st.err = none) (hhf : doc_entries_ok entry_ok doc secs = true) :
    (processSections "increment" "job" start step rng doc secs st).2.err = none ∧
    doc_seed_lists (processSections "increment" "job" start step rng doc secs st).1
        secs
      = (doc_seed_lists doc secs).map
          (fun l => (List.range l.length).map
            (fun (i : Nat) => start + (i : Int) * step)) := by
  induction secs generalizing doc st with
  | nil => simp [processSections, doc_seed_lists_nil, herr]
  | cons sec rest ih =>
    obtain ⟨hnmem, hndr⟩ := List.nodup_cons.mp hnd
    rw [doc_entries_ok_cons, Bool.and_eq_true] at hhf
    obtain ⟨hhs, hhr⟩ := hhf
    obtain ⟨h1, h2⟩ := processSection_inc_job start step rng doc sec st herr hhs
    have hhr1 : doc_entries_ok entry_ok
        (processSection "increment" "job" start step rng doc sec st).1 rest
        = true := by
      rw [doc_entries_ok_congr entry_ok
        (processSection "increment" "job" start step rng doc sec st).1 doc rest
        (fun k hk => processSection_stable "increment" "job" start step rng doc sec
          st k (fun he => hnmem (he ▸ hk)))]
      exact hhr
    obtain ⟨g1, g2⟩ :=
      ih hndr (processSection "increment" "job" start step rng doc sec st).1
        (processSection "increment" "job" start step rng doc sec st).2 h1 hhr1
    rw [processSections_cons]
    set doc1 := (processSection "increment" "job" start step rng doc sec st).1
      with hdoc1
    set st1 := (processSection "increment" "job" start step rng doc sec st).2
      with hst1
    set fin := (processSections "increment" "job" start step rng doc1 rest st1).1
      with hfin
    have hrest_in : doc_seed_lists doc1 rest = doc_seed_lists doc rest :=
      doc_seed_lists_congr doc1 doc rest
        (fun k hk => processSection_stable "increment" "job" start step rng doc sec
          st k (fun he => hnmem (he ▸ hk)))
    have hsec_fin : section_seed_lists fin sec = section_seed_lists doc1 sec :=
      section_seed_lists_congr fin doc1 sec
        (processSections_stable "increment" "job" start step rng rest doc1 st1 sec
          hnmem)
    have hin : doc_seed_lists doc (sec :: rest)
        = section_seed_lists doc sec ++ doc_seed_lists doc rest :=
      doc_seed_lists_cons doc sec rest
    have hout : doc_seed_lists fin (sec :: rest)
        = section_seed_lists doc1 sec ++ doc_seed_lists fin rest := by
      rw [doc_seed_lists_cons, hsec_fin]
    rw [hin, hout]
    rw [hrest_in] at g2
    rw [List.map_append, h2, g2]
    exact ⟨g1, rfl⟩

/-- C6, amended: in increment mode with job scope, on a document none of
whose traversed nodes has an unhashable class_type (otherwise the
set-membership test raises TypeError and aborts the traversal), the counter
resets to start at the beginning of each traversed job: every job's eligible
fields receive, in encounter order, the sequence start, start plus step, and
so on, independently of all other jobs and sections. -/
theorem reseed_increment_job_seeds (doc : List (String × Val))
    (start step : Int) (rng : Nat → Int) (os : Option (List String))
    (hnd : (valid_sections_of os).Nodup)
    (hhf : doc_entries_ok entry_ok doc (valid_sections_of os) = true) :
    doc_seed_lists (reseed_document doc "increment" start step "job" rng os).1
        (valid_sections_of os)
      = (doc_seed_lists doc (valid_sections_of os)).map
          (fun l => (List.range l.length).map
            (fun (i : Nat) => start + (i : Int) * step)) := by
  obtain ⟨h1, h2⟩ := processSections_inc_job start step rng
    (valid_sections_of os) hnd doc
    { seqVal := start, jobSeed := start, rngIdx := 0, touched := 0,
      changed := 0, err := none } rfl hhf
  exact h2

/-- C6, counterexample to the claim as stated: in increment job scope with
start 10 and step 5, on a document whose only job meets a list-valued
class_type before its eligible sampler node, the call raises TypeError and
the job's eligible seed keeps its old value 999 instead of receiving the
per-job sequence value 10. -/
theorem reseed_increment_job_hazard :
    (reseed_document docHazard "increment" 10 5 "job" (fun _ => 0) none).2.2.2
      = some "unhashable type: list" ∧
    doc_seed_lists (reseed_document docHazard "increment" 10 5 "job"
        (fun _ => 0) none).1 (valid_sections_of none) = [[999]] ∧
    (doc_seed_lists docHazard (valid_sections_of none)).map
        (fun l => (List.range l.length).map
          (fun (i : Nat) => (10 : Int) + (i : Int) * 5)) = [[10]] ∧
    ([[(999 : Int)]] : List (List Int)) ≠ [[(10 : Int)]] :=
  ⟨rfl, rfl, by decide, by decide⟩

/-- C6, witness: two jobs with two eligible sampler nodes each, start 10 and
step 5 in job scope, receive the seeds 10, 15 and then again 10, 15. -/
theorem reseed_increment_job_seeds_witness :
    (valid_sections_of none).Nodup ∧
    doc_entries_ok entry_ok docTwoJobs (valid_sections_of none) = true ∧
    doc_seed_lists (reseed_document docTwoJobs "increment" 10 5 "job"
        (fun _ => 0) none).1 (valid_sections_of none) = [[10, 15], [10, 15]] := by
  refine ⟨by decide, by decide, ?_⟩
  rw [reseed_increment_job_seeds docTwoJobs 10 5 (fun _ => 0) none (by decide)
    (by decide)]
  decide

/-- Path lookup inside a value, used by the theorem statements to observe a
single field: a left component selects a dict key, a right component a list
index. -/
def getIn : Val → List (Sum String Nat) → Option Val
  | v, [] => some v
  | .vobj o, .inl k :: rest =>
    (match objGet o k with
     | some v => getIn v rest
     | none => none)
  | .vlist l, .inr i :: rest =>
    (match l.get? i with
     | some v => getIn v rest
     | none => none)
  | _, _ => none

/-- A document whose only job carries a SaveImage node with a
filename_prefix. -/
def docC1 : List (String × Val) :=
  [("queue_pending", .vlist [.vlist [.vint 0, .vstr "id",
    .vobj [("1", .vobj [("class_type", .vstr "SaveImage"),
                        ("inputs", .vobj [("filename_prefix", .vstr "clip-81f")])])]]])]

/-- The path of the filename_prefix field inside docC1. -/
def pathC1 : List (Sum String Nat) :=
  [.inl "queue_pending", .inr 0, .inr 2, .inl "1", .inl "inputs",
   .inl "filename_prefix"]

/-- C1: the rewrite is not idempotent.  A first pass turns the prefix
clip-81f into clip-145f; a second pass with the same frames appends another
segment, because the source detects a missing regex match by string
equality, which also fires when the replacement leaves the string
unchanged. -/
theorem rewrite_not_idempotent :
    rewrite_prefix "clip-81f" 145 = "clip-145f" ∧
    rewrite_prefix "clip-145f" 145 = "clip-145f-145f" ∧
    (process_saved_queue docC1 145).map (fun d => getIn (.vobj d) pathC1)
      = Except.ok (some (.vstr "clip-145f")) ∧
    ((process_saved_queue docC1 145).bind (fun d => process_saved_queue d 145)).map
        (fun d => getIn (.vobj d) pathC1)
      = Except.ok (some (.vstr "clip-145f-145f")) :=
  ⟨rfl, rfl, rfl, rfl⟩

/-- C7: the three literal cases of the spec hold, but the general
prefix-rewrite rule does not: a string whose digits already equal frames is
not returned unchanged, the code appends a duplicate segment instead; the
same happens with a trailing steps suffix. -/
theorem rewrite_prefix_cases :
    rewrite_prefix "clip-81f" 145 = "clip-145f" ∧
    rewrite_prefix "clip-81f24steps" 145 = "clip-145f24steps" ∧
    rewrite_prefix "clip" 145 = "clip-145f" ∧
    rewrite_prefix "clip-145f" 145 = "clip-145f-145f" ∧
    rewrite_prefix "clip-145f24steps" 145 = "clip-145f24steps-145f" :=
  ⟨rfl, rfl, rfl, rfl, rfl⟩

/-- The metadata of the malformed job used against C3. -/
def metaC3 : Val :=
  .vobj [("extra_pnginfo", .vobj [("workflow", .vobj [("nodes", .vlist
    [.vobj [("type", .vstr "SaveImage"),
            ("widgets_values", .vlist [.vstr "clip-81f"])]])])])]

/-- A document whose only job is a list with a non-mapping at index 2 and a
metadata mapping at index 3. -/
def docC3 : List (String × Val) :=
  [("queue_pending", .vlist [.vlist [.vint 0, .vstr "id", .vstr "bad", metaC3]])]

/-- The path of the UI widget string inside docC3. -/
def pathC3 : List (Sum String Nat) :=
  [.inl "queue_pending", .inr 0, .inr 3, .inl "extra_pnginfo", .inl "workflow",
   .inl "nodes", .inr 0, .inl "widgets_values", .inr 0]

/-- C3, counterexample: on a job whose index 2 is not a mapping, the rewrite
pipeline still rewrites the metadata at index 3: the widget string changes
from clip-81f to clip-145f. -/
theorem rewrite_touches_meta_counterexample :
    getIn (.vobj docC3) pathC3 = some (.vstr "clip-81f") ∧
    (process_saved_queue docC3 145).map (fun d => getIn (.vobj d) pathC3)
      = Except.ok (some (.vstr "clip-145f")) :=
  ⟨rfl, rfl⟩

/-- C3, amended: on a list job whose index 2 is not a mapping, the reseed
traversal yields no nodes and does not yield the item at all, while the
rewrite pipeline skips only the graph pass and still processes a mapping at
index 3 through the UI-mirror pass. -/
theorem malformed_job_meta_behavior (a b c : Val) (m : List (String × Val))
    (frames : Int) (hc : is_vobj c = false) :
    queue_item_ok (.vlist [a, b, c, .vobj m]) = false ∧
    iter_nodes_from_item (.vlist [a, b, c, .vobj m]) = [] ∧
    fix_job_entry (.vlist [a, b, c, .vobj m]) frames
      = (fix_workflow_nodes m frames).map
          (fun m2 => .vlist [a, b, c, .vobj m2]) := by
  refine ⟨?_, ?_, ?_⟩
  · cases c <;> simp_all [queue_item_ok, is_vobj]
  · cases c <;> simp_all [iter_nodes_from_item, is_vobj]
  · cases hw : fix_workflow_nodes m frames with
    | ok m2 => cases c <;> simp_all [fix_job_entry, is_vobj, hw, List.set, Except.map]
    | error e => cases c <;> simp_all [fix_job_entry, is_vobj, hw, Except.map]

/-- C3, witness: the amended behavior at the concrete malformed job of the
counterexample document. -/
theorem malformed_job_meta_behavior_witness :
    is_vobj (Val.vstr "bad") = false ∧
    (queue_item_ok (.vlist [.vint 0, .vstr "id", .vstr "bad", metaC3]) = false ∧
     iter_nodes_from_item (.vlist [.vint 0, .vstr "id", .vstr "bad", metaC3]) = [] ∧
     fix_job_entry (.vlist [.vint 0, .vstr "id", .vstr "bad", metaC3]) 145
       = (fix_workflow_nodes
           [("extra_pnginfo", .vobj [("workflow", .vobj [("nodes", .vlist
             [.vobj [("type", .vstr "SaveImage"),
                     ("widgets_values", .vlist [.vstr "clip-81f"])]])])])] 145).map
           (fun m2 => .vlist [.vint 0, .vstr "id", .vstr "bad", .vobj m2])) :=
  ⟨by decide,
   malformed_job_meta_behavior (.vint 0) (.vstr "id") (.vstr "bad") _ 145 (by decide)⟩

/-- The canonical graph used against C4. -/
def graphC4 : List (String × Val) :=
  [("1", .vobj [("class_type", .vstr "EmptyHunyuanLatentVideo"),
                ("inputs", .vobj [("length", .vint 5)])])]

/-- A document whose only job is a bare Node-Map. -/
def docC4dict : List (String × Val) := [("queue_pending", .vlist [.vobj graphC4])]

/-- The same graph wrapped in a list-shaped job. -/
def docC4list : List (String × Val) :=
  [("queue_pending", .vlist [.vlist [.vint 0, .vstr "id", .vobj graphC4]])]

/-- C4, counterexample: the rewrite leaves a bare Node-Map job completely
untouched (its sizing node keeps length 5), while the identical graph inside
a list-shaped job is forced to length 145. -/
theorem rewrite_skips_dict_job_counterexample :
    process_saved_queue docC4dict 145 = Except.ok docC4dict ∧
    getIn (.vobj docC4dict)
        [.inl "queue_pending", .inr 0, .inl "1", .inl "inputs", .inl "length"]
      = some (.vint 5) ∧
    (process_saved_queue docC4list 145).map (fun d => getIn (.vobj d)
        [.inl "queue_pending", .inr 0, .inr 2, .inl "1", .inl "inputs", .inl "length"])
      = Except.ok (some (.vint 145)) :=
  ⟨rfl, rfl, rfl⟩

/-- C4, amended: the rewrite pipeline returns every non-list job untouched;
bare Node-Map jobs are traversed only by the reseed pipeline, whose node
iterator yields exactly the mapping's dict-valued entries. -/
theorem rewrite_skips_nonlist_jobs (frames : Int) :
    (∀ job : Val, is_vlist job = false → fix_job_entry job frames = Except.ok job) ∧
    (∀ m : List (String × Val),
      iter_nodes_from_item (.vobj m) = m.filter (fun p => is_vobj p.2)) := by
  constructor
  · intro job h
    cases job <;> simp_all [fix_job_entry, is_vlist]
  · intro m
    rfl

/-- C4, witness: the amended behavior at the bare Node-Map job of the
counterexample document. -/
theorem rewrite_skips_nonlist_jobs_witness :
    is_vlist (Val.vobj graphC4) = false ∧
    fix_job_entry (.vobj graphC4) 145 = Except.ok (.vobj graphC4) ∧
    iter_nodes_from_item (.vobj graphC4)
      = graphC4.filter (fun p => is_vobj p.2) :=
  ⟨by decide,
   (rewrite_skips_nonlist_jobs 145).1 (.vobj graphC4) (by decide),
   (rewrite_skips_nonlist_jobs 145).2 graphC4⟩

/-- A document whose only job carries a non-mapping entry inside its graph
dict. -/
def docC9 : List (String × Val) :=
  [("queue_pending", .vlist [.vlist [.vint 0, .vstr "x",
    .vobj [("1", .vstr "oops")]]])]

/-- C9, counterexample: the rewrite pipeline raises an attribute error on a
document whose graph dict holds a non-mapping node value, so it is not total
on malformed node entries. -/
theorem rewrite_raises_on_nonmapping_node :
    process_saved_queue docC9 145 = Except.error PyErr.attributeError := rfl

/-- C9, amended: a missing or non-list section never raises and contributes
zero traversed jobs in both pipelines; for a valid mode and duplicate-free
sections, the reseed pipeline never raises on a document none of whose
traversed nodes has a list- or dict-valued class_type, but it does raise
TypeError from the sampler-class set membership when one does; its node
iterator yields only mappings; only the rewrite pipeline raises on a
non-mapping entry inside a graph mapping. -/
theorem traversal_malformed_tolerance :
    (∀ (doc : List (String × Val)) (sec : String) (rest : List String),
       opt_is_vlist (objGet doc sec) = false →
       iter_queue_items doc (sec :: rest) = iter_queue_items doc rest) ∧
    (∀ (doc : List (String × Val)) (frames : Int),
       opt_is_vlist (objGet doc "queue_running") = false →
       opt_is_vlist (objGet doc "queue_pending") = false →
       opt_is_vlist (objGet doc "queue_failed") = false →
       process_saved_queue doc frames = Except.ok doc) ∧
    (∀ (doc : List (String × Val)) (mode : String) (start step : Int)
       (scope : String) (rng : Nat → Int) (os : Option (List String)),
       mode = "random" ∨ mode = "increment" →
       (valid_sections_of os).Nodup →
       doc_entries_ok entry_ok doc (valid_sections_of os) = true →
       (reseed_document doc mode start step scope rng os).2.2.2 = none) ∧
    (reseed_document docHazard "random" 0 1 "global" (fun _ => 0) none).2.2.2
      = some "unhashable type: list" ∧
    (∀ (item : Val) (p : String × Val),
       p ∈ iter_nodes_from_item item → is_vobj p.2 = true) := by
  refine ⟨?_, ?_, ?_, rfl, ?_⟩
  · intro doc sec rest h
    unfold iter_queue_items
    rw [List.flatMap_cons]
    match hsec : objGet doc sec with
    | none => simp
    | some .vnull | some (.vbool _) | some (.vint _) | some (.vstr _)
    | some (.vobj _) => simp
    | some (.vlist items) => rw [hsec] at h; simp [opt_is_vlist] at h
  · intro doc frames h1 h2 h3
    have e1 : psq_section doc "queue_running" frames = Except.ok doc := by
      unfold psq_section
      match hs : objGet doc "queue_running" with
      | none => rfl
      | some .vnull | some (.vbool _) | some (.vint _) | some (.vstr _)
      | some (.vobj _) => rfl
      | some (.vlist items) => rw [hs] at h1; simp [opt_is_vlist] at h1
    have e2 : psq_section doc "queue_pending" frames = Except.ok doc := by
      unfold psq_section
      match hs : objGet doc "queue_pending" with
      | none => rfl
      | some .vnull | some (.vbool _) | some (.vint _) | some (.vstr _)
      | some (.vobj _) => rfl
      | some (.vlist items) => rw [hs] at h2; simp [opt_is_vlist] at h2
    have e3 : psq_section doc "queue_failed" frames = Except.ok doc := by
      unfold psq_section
      match hs : objGet doc "queue_failed" with
      | none => rfl
      | some .vnull | some (.vbool _) | some (.vint _) | some (.vstr _)
      | some (.vobj _) => rfl
      | some (.vlist items) => rw [hs] at h3; simp [opt_is_vlist] at h3
    unfold process_saved_queue
    rw [e1]
    show (psq_section doc "queue_pending" frames).bind _ = _
    rw [e2]
    show psq_section doc "queue_failed" frames = _
    exact e3
  · intro doc mode start step scope rng os hm hnd hhf
    exact (processSections_valid mode scope start step rng hm
      (valid_sections_of os) hnd doc
      { seqVal := start, jobSeed := start, rngIdx := 0, touched := 0,
        changed := 0, err := none } rfl hhf).1
  · intro item p hp
    match item with
    | .vnull | .vbool _ | .vint _ | .vstr _ => simp [iter_nodes_from_item] at hp
    | .vobj m => exact (List.mem_filter.mp hp).2
    | .vlist l =>
      rw [show iter_nodes_from_item (Val.vlist l)
        = (match l.get? 2 with
           | some (.vobj nodes) => nodes.filter (fun p => is_vobj p.2)
           | _ => []) from rfl] at hp
      match hg : l.get? 2 with
      | none => rw [hg] at hp; simp at hp
      | some .vnull | some (.vbool _) | some (.vint _) | some (.vstr _)
      | some (.vlist _) => rw [hg] at hp; simp at hp
      | some (.vobj nodes) =>
        rw [hg] at hp
        exact (List.mem_filter.mp hp).2

/-- C9, witness: the amended behavior at a document with a string-valued
section, and the totality and mapping-only conclusions at concrete calls. -/
theorem traversal_malformed_tolerance_witness :
    opt_is_vlist (objGet [("queue_running", Val.vstr "oops")] "queue_running") = false ∧
    iter_queue_items [("queue_running", Val.vstr "oops")] ["queue_running"]
      = iter_queue_items [("queue_running", Val.vstr "oops")] [] ∧
    process_saved_queue [("queue_running", Val.vstr "oops")] 145
      = Except.ok [("queue_running", Val.vstr "oops")] ∧
    (valid_sections_of none).Nodup ∧
    doc_entries_ok entry_ok docC9 (valid_sections_of none) = true ∧
    (reseed_document docC9 "random" 0 1 "global" (fun _ => 7) none).2.2.2 = none ∧
    is_vobj (("1", Val.vobj [("class_type", Val.vstr "KSampler")]) : String × Val).2
      = true :=
  ⟨by decide,
   traversal_malformed_tolerance.1 [("queue_running", Val.vstr "oops")] "queue_running"
     [] (by decide),
   traversal_malformed_tolerance.2.1 [("queue_running", Val.vstr "oops")] 145
     (by decide) (by decide) (by decide),
   by decide, by decide,
   traversal_malformed_tolerance.2.2.1 docC9 "random" 0 1 "global" (fun _ => 7) none
     (Or.inl rfl) (by decide) (by decide),
   traversal_malformed_tolerance.2.2.2.2
     (.vobj [("1", .vobj [("class_type", .vstr "KSampler")])])
     ("1", .vobj [("class_type", .vstr "KSampler")]) (List.Mem.head _)⟩
